import Mathlib

/-!
Map overlay: a verification development.

A shallow embedding of `spt/features/visualizations/map_overlay.cpp`:
`MapOverlay::LoadMapFile`, `MapOverlay::ClearMeshes` and
`MapOverlay::GetLandmarkOffsetToLastLoadedMap`.

Conventions of the embedding.

* C++ `int`, `short` are `Int`; `unsigned short`, `uint16_t` are `Nat`, reduced
  modulo `65536` where the source narrows a wider value.
* `float` is a type parameter `F`; the values read from the file are carried,
  never computed on, except for the vector subtraction of `LandmarkDelta`.
* `std::vector<T>` is `List T`; an index outside the vector is undefined
  behaviour in the source and the fault `Fault.outOfBounds` here.
* Loops that the source does not bound take a fuel argument and report
  `Fault.fuel` when it runs out.
-/

namespace Spt

/-! ## Faults of the embedding -/

/-- What the embedding reports where the source has no defined result. -/
inductive Fault where
  /-- an array was indexed outside its bounds -/
  | outOfBounds
  /-- `s.top()` / `s.pop()` on an empty stack -/
  | emptyStack
  /-- an array was sized from a negative lump length -/
  | badAlloc
  /-- the fuel of an unbounded loop ran out -/
  | fuel
  deriving DecidableEq, Repr

deriving instance DecidableEq for Except

/-! ## Records of `bspfile.h` -/

/-- The engine's `Vector`: three floats. -/
structure Vector (F : Type) where
  x : F
  y : F
  z : F
  deriving DecidableEq, Repr

instance instZeroVector {F : Type} [Zero F] : Zero (Vector F) := ⟨⟨0, 0, 0⟩⟩

instance instSubVector {F : Type} [Sub F] : Sub (Vector F) :=
  ⟨fun a b => ⟨a.x - b.x, a.y - b.y, a.z - b.z⟩⟩

/-- The `vec3_origin` constant. -/
def vec3_origin {F : Type} [Zero F] : Vector F := 0

/-- A plane `dplane_t`: `Vector normal; float dist; int type`. -/
structure dplane_t (F : Type) where
  normal : Vector F
  dist : F
  type : Int
  deriving DecidableEq, Repr

/-- A node `dnode_t`; only `int children[2]` is read by the loader. -/
structure dnode_t where
  children0 : Int
  children1 : Int
  deriving DecidableEq, Repr

/-- The fields of `dleaf_t` (and of `dleaf_version_0_t`) the loader reads, both
`unsigned short`. -/
structure dleaf_t where
  firstleafbrush : Nat
  numleafbrushes : Nat
  deriving DecidableEq, Repr

/-- A brush `dbrush_t`: `int firstside; int numsides; int contents`. -/
structure dbrush_t where
  firstside : Int
  numsides : Int
  contents : Int
  deriving DecidableEq, Repr

/-- A brush side `dbrushside_t`: `unsigned short planenum; short texinfo;
short dispinfo; short bevel`. -/
structure dbrushside_t where
  planenum : Nat
  texinfo : Int
  dispinfo : Int
  bevel : Int
  deriving DecidableEq, Repr

/-- The engine's `VPlane`, built by `VPlane(plane.normal, plane.dist)`. -/
structure VPlane (F : Type) where
  m_Normal : Vector F
  m_Dist : F
  deriving DecidableEq, Repr

/-- The content flag `CONTENTS_SOLID` of `bspflags.h`. -/
def CONTENTS_SOLID : Nat := 1

/-- The bitwise `contents & CONTENTS_SOLID` on the two's complement pattern of the
32-bit `contents`. -/
def contentsSolidBits (contents : Int) : Nat :=
  (contents % 4294967296).toNat &&& CONTENTS_SOLID

/-- Indexing a vector with a C++ `int`: a negative or too large index is a fault. -/
def getInt? {α : Type} (xs : List α) (i : Int) : Option α :=
  if 0 ≤ i then xs[i.toNat]? else none

/-! ## The tree traversal of `LoadMapFile` (lines 258-283) -/

/-- The `std::set<uint16_t>::insert`: the set is kept as a strictly increasing list,
which is the order its iterators visit. -/
def setInsert (a : Nat) : List Nat → List Nat
  | [] => [a]
  | x :: xs =>
    if a < x then a :: x :: xs
    else if a = x then x :: xs
    else x :: setInsert a xs

/-- The inner loop `while (curr >= 0) { s.push(curr); curr = nodes[curr].children[0]; }`.
The stack holds `uint16_t`, so the pushed value is `curr` modulo `65536`; the top of
the stack is the head of the list. -/
def descend (nodes : List dnode_t) : Nat → Int → List Nat → Except Fault (Int × List Nat)
  | 0, _, _ => .error .fuel
  | fuel + 1, curr, s =>
    if 0 ≤ curr then
      match nodes[curr.toNat]? with
      | none => .error .outOfBounds
      | some n => descend nodes fuel n.children0 ((curr.toNat % 65536) :: s)
    else .ok (curr, s)

/-- The loop `for (int i = 0; i < numleafbrushes; i++)
mapBrushesIndex.insert(leafbrushes[firstleafbrush + i]);`, with `idx` the current
`firstleafbrush + i` and the first argument the iterations left. -/
def insertLeafBrushes (leafbrushes : List Nat) : Nat → Nat → List Nat → Except Fault (List Nat)
  | 0, _, set => .ok set
  | k + 1, idx, set =>
    match leafbrushes[idx]? with
    | none => .error .outOfBounds
    | some b => insertLeafBrushes leafbrushes k (idx + 1) (setInsert b set)

/-- The leaf record selected by `header.version < 20`. -/
def leafAt (version : Int) (leaves_v0 leaves : List dleaf_t) (leafIndex : Int) : Option dleaf_t :=
  if version < 20 then getInt? leaves_v0 leafIndex else getInt? leaves leafIndex

/-- The outer loop `while (curr >= 0 || !s.empty())` with its body: descend to a leaf,
insert the leaf's brushes, pop, go to the second child of the popped node. -/
def traverseLoop (version : Int) (nodes : List dnode_t) (leaves_v0 leaves : List dleaf_t)
    (leafbrushes : List Nat) : Nat → Int → List Nat → List Nat → Except Fault (List Nat)
  | 0, _, _, _ => .error .fuel
  | fuel + 1, curr, s, set =>
    if 0 ≤ curr ∨ s ≠ [] then
      match descend nodes (fuel + 1) curr s with
      | .error e => .error e
      | .ok (curr1, s1) =>
        match leafAt version leaves_v0 leaves (-1 - curr1) with
        | none => .error .outOfBounds
        | some leaf =>
          match insertLeafBrushes leafbrushes leaf.numleafbrushes leaf.firstleafbrush set with
          | .error e => .error e
          | .ok set1 =>
            match s1 with
            | [] => .error .emptyStack
            | top :: s2 =>
              match nodes[top]? with
              | none => .error .outOfBounds
              | some n =>
                traverseLoop version nodes leaves_v0 leaves leafbrushes fuel n.children1 s2 set1
    else .ok set

/-- The traversal as `LoadMapFile` starts it: `curr = 0`, empty stack, empty set. -/
def traverse (version : Int) (nodes : List dnode_t) (leaves_v0 leaves : List dleaf_t)
    (leafbrushes : List Nat) (fuel : Nat) : Except Fault (List Nat) :=
  traverseLoop version nodes leaves_v0 leaves leafbrushes fuel 0 [] []

/-! ## The mesh callback of `LoadMapFile` (lines 292-323) -/

/-- A `ShapeColor` built by `ShapeColor(C_OUTLINE(r, g, b, a))`, with its
`zTestFaces` flag. -/
structure ShapeColor where
  outline : Nat × Nat × Nat × Nat
  zTestFaces : Bool
  deriving DecidableEq, Repr

/-- The style `#define SC_BOX_BRUSH ShapeColor(C_OUTLINE(0, 255, 255, 20))`. -/
def SC_BOX_BRUSH : ShapeColor := ⟨(0, 255, 255, 20), true⟩

/-- The style `#define SC_COMPLEX_BRUSH ShapeColor(C_OUTLINE(255, 0, 255, 20))`. -/
def SC_COMPLEX_BRUSH : ShapeColor := ⟨(255, 0, 255, 20), true⟩

/-- The loop over the sides of a brush (lines 302-311): `k` iterations are left, `i`
is the loop counter. A bevel side is skipped; any other side may clear `isBox` and
appends its plane to `vplanes`. -/
def sidesLoop {F : Type} (brushsides : List dbrushside_t) (planes : List (dplane_t F))
    (firstside : Int) : Nat → Nat → Bool → List (VPlane F) → Except Fault (Bool × List (VPlane F))
  | 0, _, isBox, vplanes => .ok (isBox, vplanes)
  | k + 1, i, isBox, vplanes =>
    match getInt? brushsides (firstside + (i : Int)) with
    | none => .error .outOfBounds
    | some brushside =>
      if brushside.bevel ≠ 0 then
        sidesLoop brushsides planes firstside k (i + 1) isBox vplanes
      else
        match planes[brushside.planenum]? with
        | none => .error .outOfBounds
        | some plane =>
          sidesLoop brushsides planes firstside k (i + 1)
            (if isBox && decide (plane.type > 2) then false else isBox)
            (vplanes ++ [⟨plane.normal, plane.dist⟩])

/-- What one run of the callback did. -/
structure BrushCall (F P : Type) where
  /-- the value returned to `CreateMultipleMeshes` -/
  ret : Bool
  /-- the planes handed to `GeneratePolyhedronFromPlanes`, `none` when it was not called -/
  polyhedronArgs : Option (List (VPlane F))
  /-- the arguments of `mb.AddCPolyhedron`, `none` when it was not called -/
  added : Option (P × ShapeColor)
  /-- the function-static `vplanes` after the call -/
  vplanes : List (VPlane F)
  deriving DecidableEq

/-- The callback given to `CreateMultipleMeshes`. `genPoly` is the engine's
`GeneratePolyhedronFromPlanes` (with the fixed epsilon), `addPoly` is the result of
`mb.AddCPolyhedron`, `vplanes` is the function-static vector as the previous call
left it. -/
def brushCallback {F P : Type} (genPoly : List (VPlane F) → Option P)
    (addPoly : P → ShapeColor → Bool) (brushes : List dbrush_t)
    (brushsides : List dbrushside_t) (planes : List (dplane_t F)) (ztest : Bool)
    (vplanes : List (VPlane F)) (brushIndex : Nat) : Except Fault (BrushCall F P) :=
  match brushes[brushIndex]? with
  | none => .error .outOfBounds
  | some brush =>
    let isBox : Bool := decide (brush.numsides = 6)
    if contentsSolidBits brush.contents = 0 then
      .ok ⟨true, none, none, vplanes⟩
    else
      match sidesLoop brushsides planes brush.firstside brush.numsides.toNat 0 isBox [] with
      | .error e => .error e
      | .ok (isBox1, vplanes1) =>
        match genPoly vplanes1 with
        | none => .ok ⟨true, some vplanes1, none, vplanes1⟩
        | some poly =>
          let color : ShapeColor :=
            { (if isBox1 then SC_BOX_BRUSH else SC_COMPLEX_BRUSH) with zTestFaces := ztest }
          .ok ⟨addPoly poly color, some vplanes1, some (poly, color), vplanes1⟩

/-- Modelled from the spec: `MeshBuilder::CreateMultipleMeshes`, which belongs to the
renderer and is not in the source file. The builder is invoked once per unique brush
index, in the order of the set, and what it added is the geometry set. -/
def CreateMultipleMeshes {F P : Type}
    (callback : List (VPlane F) → Nat → Except Fault (BrushCall F P)) :
    List Nat → List (VPlane F) → Except Fault (List (P × ShapeColor))
  | [], _ => .ok []
  | b :: bs, vplanes =>
    match callback vplanes b with
    | .error e => .error e
    | .ok call =>
      match CreateMultipleMeshes callback bs call.vplanes with
      | .error e => .error e
      | .ok rest => .ok (call.added.toList ++ rest)

/-! ## The file, its header and its lumps (lines 108-188) -/

/-- The errors `LoadMapFile` reports through `*err`. -/
inductive LoadError where
  | cannotOpen
  | unexpectedEOF
  | notBsp
  | unsupportedVersion
  | badEntityLump
  deriving DecidableEq, Repr

/-- The text stored in `*err`. -/
def LoadError.message : LoadError → String
  | .cannotOpen => "Cannot open file."
  | .unexpectedEOF => "Unexpected EOF."
  | .notBsp => "Not a bsp file."
  | .unsupportedVersion => "Unsupported bsp version."
  | .badEntityLump => "bad entity lump"

/-- How a step of the load stops early: with an error of the source, or with a fault
of the embedding. -/
inductive Abort where
  | error (e : LoadError)
  | fault (f : Fault)
  deriving DecidableEq, Repr

/-- The lumps `LoadMapFile` reads, named as the `LUMP_` constants that index
`header.lumps`. -/
inductive LumpId where
  | LUMP_PLANES
  | LUMP_NODES
  | LUMP_LEAFS
  | LUMP_LEAFBRUSHES
  | LUMP_BRUSHES
  | LUMP_BRUSHSIDES
  | LUMP_ENTITIES
  deriving DecidableEq, Repr

/-- A directory entry `lump_t`: `int fileofs, filelen`. -/
structure lump_t where
  fileofs : Int
  filelen : Int
  deriving DecidableEq, Repr

/-- The header `dheader_t`, with the directory entries the loader uses. -/
structure dheader_t where
  ident : Int
  version : Int
  lumps : LumpId → lump_t

/-- The declarations of `bspfile.h`, which is not part of the source file: the sizes
of the records, how each is laid out in the bytes of the file, and the magic number.
The loader is stated for any such format; `sdkFormat` below is the one of the SDK. -/
structure BspFormat (F : Type) where
  IDBSPHEADER : Int
  sizeofHeader : Nat
  decodeHeader : List Nat → dheader_t
  sizeofPlane : Nat
  decodePlane : List Nat → dplane_t F
  sizeofNode : Nat
  decodeNode : List Nat → dnode_t
  sizeofLeafV0 : Nat
  decodeLeafV0 : List Nat → dleaf_t
  sizeofLeaf : Nat
  decodeLeaf : List Nat → dleaf_t
  sizeofBrush : Nat
  decodeBrush : List Nat → dbrush_t
  sizeofBrushSide : Nat
  decodeBrushSide : List Nat → dbrushside_t

/-- An opened `std::ifstream`: the bytes of the file and the read position. -/
structure IfStream where
  data : List Nat
  pos : Nat
  deriving DecidableEq, Repr

/-- The macro `SEEK_TO_BYTE`: `f.seekg(offset, std::ios::beg)` fails for a negative
offset; a position past the end of the file is accepted by the seek. -/
def SEEK_TO_BYTE (f : IfStream) (offset : Int) : Except Abort IfStream :=
  if 0 ≤ offset then .ok { f with pos := offset.toNat }
  else .error (.error .unexpectedEOF)

/-- The macro `READ_BYTES`: `f.read(buffer, bytes)` followed by the test
`f.gcount() != bytes`. `capacity` is the number of bytes of storage behind `buffer`.
The read stores the characters it gets, up to `bytes` of them or as many as the file
still has, before the count is tested; storing more than `capacity` of them writes past
the storage, which is the fault `outOfBounds`. -/
def READ_BYTES (f : IfStream) (capacity bytes : Nat) : Except Abort (List Nat × IfStream) :=
  let got := (f.data.drop f.pos).take bytes
  if capacity < got.length then .error (.fault .outOfBounds)
  else if got.length = bytes then .ok (got, { f with pos := f.pos + bytes })
  else .error (.error .unexpectedEOF)

/-- The records of a vector that a completed `READ_BYTES` has filled: each is decoded
from its `sizeof(T)` bytes. The bytes are those of a read that `readLump` let through,
into a vector of `filelen / sizeof(T)` records, so they are whole records (see
`readLump_ok_whole_records`): a read that would leave bytes over has written past the
vector and stopped in `READ_BYTES`. -/
def decodeArray {α : Type} (size : Nat) (decode : List Nat → α) (bytes : List Nat) : List α :=
  (List.range (bytes.length / size)).map (fun k => decode ((bytes.drop (k * size)).take size))

/-- One lump read, for records of `size = sizeof(T)` bytes: seek to `fileofs`, size the
vector to `filelen / sizeof(T)` records, read `filelen` bytes into it. The vector has
`filelen / sizeof(T) * sizeof(T)` bytes of storage, fewer than `filelen` when `filelen`
is not a multiple of the record size. A negative `filelen` would size the vector from
the wrapped unsigned value and is the fault `badAlloc`. -/
def readLump (size : Nat) (f : IfStream) (l : lump_t) : Except Abort (List Nat × IfStream) :=
  match SEEK_TO_BYTE f l.fileofs with
  | .error a => .error a
  | .ok f1 =>
    if l.filelen < 0 then .error (.fault .badAlloc)
    else READ_BYTES f1 (l.filelen.toNat / size * size) l.filelen.toNat

/-- The version test of lines 145-146, `true` when the version is accepted. -/
def versionSupported (isDMoMM : Bool) (version : Int) : Bool :=
  !(decide (version ≠ 20) && decide (version ≠ 19)
    && !(isDMoMM && decide ((version >>> (16 : Nat)) ≠ 20)))

/-- The arrays `LoadMapFile` holds once all lumps are read. -/
structure Lumps (F : Type) where
  version : Int
  planes : List (dplane_t F)
  nodes : List dnode_t
  leaves_v0 : List dleaf_t
  leaves : List dleaf_t
  leafbrushes : List Nat
  brushes : List dbrush_t
  brushsides : List dbrushside_t
  ents : List Nat

/-- The little-endian `unsigned short` at offset `off` of a byte list. -/
def u16le (bytes : List Nat) (off : Nat) : Nat :=
  (bytes.getD off 0) % 256 + 256 * ((bytes.getD (off + 1) 0) % 256)

/-- The little-endian 32-bit word at offset `off` of a byte list. -/
def u32le (bytes : List Nat) (off : Nat) : Nat :=
  u16le bytes off + 65536 * u16le bytes (off + 2)

/-- The two's complement `short` at offset `off`. -/
def i16le (bytes : List Nat) (off : Nat) : Int :=
  if u16le bytes off < 32768 then (u16le bytes off : Int) else (u16le bytes off : Int) - 65536

/-- The two's complement `int` at offset `off`. -/
def i32le (bytes : List Nat) (off : Nat) : Int :=
  if u32le bytes off < 2147483648 then (u32le bytes off : Int)
  else (u32le bytes off : Int) - 4294967296

/-- The little-endian `uint16_t` entries of the leaf-brush lump. -/
def decodeU16 (bytes : List Nat) : Nat := u16le bytes 0

/-- Lines 137-188: the header, its two checks, and the seven lump reads, in the
order of the source. -/
def readLumps {F : Type} (fmt : BspFormat F) (isDMoMM : Bool) (data : List Nat) :
    Except Abort (Lumps F) :=
  match READ_BYTES ⟨data, 0⟩ fmt.sizeofHeader fmt.sizeofHeader with
  | .error a => .error a
  | .ok (hbytes, f0) =>
    let header := fmt.decodeHeader hbytes
    if header.ident ≠ fmt.IDBSPHEADER then .error (.error .notBsp)
    else if !versionSupported isDMoMM header.version then .error (.error .unsupportedVersion)
    else
      match readLump fmt.sizeofPlane f0 (header.lumps .LUMP_PLANES) with
      | .error a => .error a
      | .ok (bPlanes, f1) =>
      match readLump fmt.sizeofNode f1 (header.lumps .LUMP_NODES) with
      | .error a => .error a
      | .ok (bNodes, f2) =>
      match readLump (if header.version < 20 then fmt.sizeofLeafV0 else fmt.sizeofLeaf) f2
          (header.lumps .LUMP_LEAFS) with
      | .error a => .error a
      | .ok (bLeafs, f3) =>
      match readLump 2 f3 (header.lumps .LUMP_LEAFBRUSHES) with
      | .error a => .error a
      | .ok (bLeafBrushes, f4) =>
      match readLump fmt.sizeofBrush f4 (header.lumps .LUMP_BRUSHES) with
      | .error a => .error a
      | .ok (bBrushes, f5) =>
      match readLump fmt.sizeofBrushSide f5 (header.lumps .LUMP_BRUSHSIDES) with
      | .error a => .error a
      | .ok (bBrushSides, f6) =>
      match readLump 1 f6 (header.lumps .LUMP_ENTITIES) with
      | .error a => .error a
      | .ok (bEnts, _) =>
        .ok
          { version := header.version
            planes := decodeArray fmt.sizeofPlane fmt.decodePlane bPlanes
            nodes := decodeArray fmt.sizeofNode fmt.decodeNode bNodes
            leaves_v0 :=
              if header.version < 20 then decodeArray fmt.sizeofLeafV0 fmt.decodeLeafV0 bLeafs
              else []
            leaves :=
              if header.version < 20 then []
              else decodeArray fmt.sizeofLeaf fmt.decodeLeaf bLeafs
            leafbrushes := decodeArray 2 decodeU16 bLeafBrushes
            brushes := decodeArray fmt.sizeofBrush fmt.decodeBrush bBrushes
            brushsides := decodeArray fmt.sizeofBrushSide fmt.decodeBrushSide bBrushSides
            ents := bEnts }

/-! ## The landmark scan of `LoadMapFile` (lines 190-256) -/

/-- A landmark list `utils::SptLandmarkList`: names with positions. -/
abbrev SptLandmarkList (F : Type) := List (String × Vector F)

/-- The character codes of a string literal of the source. -/
def cstr (s : String) : List Nat := s.toList.map Char.toNat

/-- Whether `needle` stands at the head of `text`. -/
def startsWith {α : Type} [DecidableEq α] : List α → List α → Bool
  | [], _ => true
  | _ :: _, [] => false
  | a :: as, b :: bs => decide (a = b) && startsWith as bs

/-- The index of the first occurrence of `needle` in `text`. -/
def findSub {α : Type} [DecidableEq α] (needle : List α) : List α → Option Nat
  | [] => if needle = [] then some 0 else none
  | c :: cs =>
    if startsWith needle (c :: cs) then some 0
    else (findSub needle cs).map (· + 1)

/-- The C string that starts at position `p` of the buffer: the characters up to the
first NUL; `none` when the buffer holds no NUL from `p` on, so that a string function
would read past its end. -/
def cstrFrom (buf : List Nat) (p : Nat) : Option (List Nat) :=
  let rest := buf.drop p
  let str := rest.takeWhile (fun c => decide (c ≠ 0))
  if str.length < rest.length then some str else none

/-- The call `strstr(buf + p, needle)`, as a position of the buffer. -/
def strstr (buf : List Nat) (p : Nat) (needle : List Nat) : Except Fault (Option Nat) :=
  match cstrFrom buf p with
  | none => .error .outOfBounds
  | some str => .ok ((findSub needle str).map (· + p))

/-- The loop `do { --startSearch; } while (strncmp(startSearch, "{\n", 2) &&
startSearch > ents.data());` of lines 199-203, started at position `p`; the result is
`startSearch` when the loop ends, as an offset from `ents.data()`. Started at the start
of the buffer, the loop steps to the offset -1 and ends there whatever the comparison at
that position gives, because `startSearch > ents.data()` is false. -/
def backToBrace (buf : List Nat) : Nat → Int
  | 0 => -1
  | p + 1 =>
    if startsWith (cstr "\x7b\n") (buf.drop p) then (p : Int)
    else if 0 < p then backToBrace buf p
    else (p : Int)

/-- The loop `while (nextNl < endSearch && *nextNl != '\n') nextNl++;`, the first
argument bounding its iterations. -/
def nextNewline (buf : List Nat) (endSearch : Nat) : Nat → Nat → Nat
  | 0, nextNl => nextNl
  | k + 1, nextNl =>
    if nextNl < endSearch ∧ buf.getD nextNl 0 ≠ 10 then nextNewline buf endSearch k (nextNl + 1)
    else nextNl

/-- The two `_snscanf_s` calls of the scan, which belong to the C runtime.
`scanOrigin input pos` is the call with the format `"origin" "%f %f %f"`: the number
of fields it converted and `pos` with those fields stored. `scanTargetname input` is
the call with the format `"targetname" "%s`: the name when one field was converted. -/
structure Scanf (F : Type) where
  scanOrigin : List Nat → Vector F → Nat × Vector F
  scanTargetname : List Nat → Option String

/-- The input of the second `_snscanf_s` call: `nextNl - startSearch - 1` characters
from `startSearch`; on an empty line the count wraps and the whole C string is read. -/
def targetnameInput (buf : List Nat) (startSearch nextNl : Nat) : List Nat :=
  if startSearch < nextNl then (buf.drop startSearch).take (nextNl - startSearch - 1)
  else (buf.drop startSearch).takeWhile (fun c => decide (c ≠ 0))

/-- The line loop of lines 218-249 over one entity block; the result is `pos` and the
name when `nameFound`. -/
def scanBlock {F : Type} (sc : Scanf F) (buf : List Nat) (endSearch : Nat) :
    Nat → Nat → Vector F → Option String → Bool → Vector F × Option String
  | 0, _, pos, name, _ => (pos, name)
  | fuel + 1, startSearch, pos, name, posFound =>
    let nextNl := nextNewline buf endSearch buf.length startSearch
    if endSearch ≤ nextNl then (pos, name)
    else
      let line := (buf.drop startSearch).take (nextNl - startSearch)
      let o := if posFound then (0, pos) else sc.scanOrigin line pos
      if !posFound && decide (o.1 = 3) then
        if name.isSome then (o.2, name)
        else scanBlock sc buf endSearch fuel (nextNl + 1) o.2 name true
      else
        match (if name.isSome then none else sc.scanTargetname (targetnameInput buf startSearch nextNl)) with
        | some n =>
          if posFound then (o.2, some n)
          else scanBlock sc buf endSearch fuel (nextNl + 1) o.2 (some n) posFound
        | none => scanBlock sc buf endSearch fuel (nextNl + 1) o.2 name posFound

/-- The scan loop `for (; !ents.empty();)` from position `landmarkEntPtr`, with the
landmarks appended to `bspLandmarks` so far. The first component is how the loop
stopped early, if it did. -/
def scanLoop {F : Type} [Zero F] (sc : Scanf F) (buf : List Nat) :
    Nat → Nat → SptLandmarkList F → Option Abort × SptLandmarkList F
  | 0, _, acc => (some (.fault .fuel), acc)
  | fuel + 1, landmarkEntPtr, acc =>
    match strstr buf landmarkEntPtr (cstr "\"classname\" \"info_landmark\"") with
    | .error f => (some (.fault f), acc)
    | .ok none => (none, acc)
    | .ok (some found) =>
      let startSearch := backToBrace buf found + 2
      match strstr buf found (cstr "\n\x7d") with
      | .error f => (some (.fault f), acc)
      | .ok none => (some (.error .badEntityLump), acc)
      | .ok (some endSearch) =>
        let r := scanBlock sc buf endSearch buf.length startSearch.toNat 0 none false
        let acc1 := match r.2 with
          | some name => acc ++ [(name, r.1)]
          | none => acc
        if buf.length - 1 ≤ endSearch + 2 then (none, acc1)
        else scanLoop sc buf fuel (endSearch + 2) acc1

/-- The landmark scan on the entity lump, starting from the `bspLandmarks` that
`LoadMapFile` has just cleared. -/
def scanLandmarks {F : Type} [Zero F] (sc : Scanf F) (ents : List Nat) :
    Option Abort × SptLandmarkList F :=
  if ents = [] then (none, []) else scanLoop sc ents ents.length 0 []

/-! ## The feature object and its three entry points -/

/-- The fields of `class MapOverlay` that the three entry points read or write.
`meshes` is the geometry that `CreateMultipleMeshes` stored. -/
structure MapOverlay (F P : Type) where
  meshes : List (P × ShapeColor)
  lastLoadedFile : String
  createdWithZTestMaterial : Bool
  bspLandmarks : SptLandmarkList F
  cachedLandmarkOffset : Vector F
  landmarkOffsetCachedFrom : String
  deriving DecidableEq

/-- What the feature asks of its surroundings: the files of the maps directory
(`none` when the stream does not open), the declarations of `bspfile.h`, the C
runtime scans, the game check, the engine's polyhedron routine, the mesh builder's
`AddCPolyhedron`, and the engine's loaded map with its landmarks. -/
structure Env (F P : Type) where
  files : String → Option (List Nat)
  fmt : BspFormat F
  scanf : Scanf F
  DoesGameLookLikeDMoMM : Bool
  GeneratePolyhedronFromPlanes : List (VPlane F) → Option P
  AddCPolyhedron : P → ShapeColor → Bool
  GetLoadedMap : String
  GetLandmarksInLoadedMap : SptLandmarkList F

/-- The result of `LoadMapFile`: `true`, `false` with `*err` set, or a fault of the
embedding. -/
inductive LoadResult where
  | ok
  | fail (err : LoadError)
  | fault (f : Fault)
  deriving DecidableEq, Repr

/-- The result that corresponds to an early stop. -/
def LoadResult.ofAbort : Abort → LoadResult
  | .error e => .fail e
  | .fault f => .fault f

/-- The test of line 100, `true` when the call returns at once. -/
def MapOverlay.noNeedToReload {F P : Type} (self : MapOverlay F P) (filename : String) (ztest : Bool) : Bool :=
  decide (filename = self.lastLoadedFile) && decide (ztest = self.createdWithZTestMaterial)
    && !self.meshes.isEmpty

/-- The method `MapOverlay::LoadMapFile`; `fuel` bounds the tree traversal. -/
def MapOverlay.LoadMapFile {F P : Type} [Zero F] (env : Env F P) (fuel : Nat) (self : MapOverlay F P)
    (filename : String) (ztest : Bool) : LoadResult × MapOverlay F P :=
  if self.noNeedToReload filename ztest then (.ok, self)
  else
    let self1 := { self with landmarkOffsetCachedFrom := "", bspLandmarks := [] }
    match env.files filename with
    | none => (.fail .cannotOpen, self1)
    | some data =>
      match readLumps env.fmt env.DoesGameLookLikeDMoMM data with
      | .error a => (LoadResult.ofAbort a, self1)
      | .ok l =>
        let scanned := scanLandmarks env.scanf l.ents
        let self2 := { self1 with bspLandmarks := scanned.2 }
        match scanned.1 with
        | some a => (LoadResult.ofAbort a, self2)
        | none =>
          match traverse l.version l.nodes l.leaves_v0 l.leaves l.leafbrushes fuel with
          | .error f => (.fault f, self2)
          | .ok mapBrushesIndex =>
            match CreateMultipleMeshes
                (brushCallback env.GeneratePolyhedronFromPlanes env.AddCPolyhedron
                  l.brushes l.brushsides l.planes ztest) mapBrushesIndex [] with
            | .error f => (.fault f, { self2 with meshes := [] })
            | .ok built =>
              (.ok, { self2 with
                        meshes := built
                        lastLoadedFile := filename
                        createdWithZTestMaterial := ztest })

/-- The method `MapOverlay::ClearMeshes`. -/
def MapOverlay.ClearMeshes {F P : Type} (self : MapOverlay F P) : MapOverlay F P :=
  { self with meshes := [], lastLoadedFile := "" }

/-- Modelled from the spec: `utils::LandmarkDelta`, which is not in the source file.
It finds a landmark name common to both lists and returns the position in the first
list minus the position in the second; with no common name it returns the zero vector.
Which shared name is used is left open by the spec; here it is the first entry of the
first list whose name the second list has, paired with the first entry of that name in
the second list. -/
def LandmarkDelta {F : Type} [Zero F] [Sub F] (fromList toList : SptLandmarkList F) : Vector F :=
  match fromList with
  | [] => vec3_origin
  | (name, pos) :: rest =>
    match toList.find? (fun e => decide (e.1 = name)) with
    | some e => pos - e.2
    | none => LandmarkDelta rest toList

/-- The call `strstr(lastLoadedFile.data(), inMap)` as a truth value: `inMap` occurs in
`lastLoadedFile`. -/
def strstrFound (haystack needle : String) : Bool :=
  (findSub needle.toList haystack.toList).isSome

/-- The method `MapOverlay::GetLandmarkOffsetToLastLoadedMap`: the vector returned
and the object after the call. -/
def MapOverlay.GetLandmarkOffsetToLastLoadedMap {F P : Type} [Zero F] [Sub F] [DecidableEq F]
    (env : Env F P) (self : MapOverlay F P) : Vector F × MapOverlay F P :=
  let inMap := env.GetLoadedMap
  if self.lastLoadedFile = "" ∨ inMap = "" then (vec3_origin, self)
  else if self.landmarkOffsetCachedFrom ≠ inMap ∨ self.landmarkOffsetCachedFrom = "" then
    let loadedLandmarks := env.GetLandmarksInLoadedMap
    if strstrFound self.lastLoadedFile inMap ∧ loadedLandmarks = self.bspLandmarks then
      (vec3_origin, { self with cachedLandmarkOffset := vec3_origin })
    else
      let d := LandmarkDelta loadedLandmarks self.bspLandmarks
      (d, { self with cachedLandmarkOffset := d, landmarkOffsetCachedFrom := inMap })
  else (self.cachedLandmarkOffset, self)

/-! ## The format of the SDK -/

/-- The index of a lump in `header.lumps`, the value of its `LUMP_` constant. -/
def LumpId.index : LumpId → Nat
  | .LUMP_ENTITIES => 0
  | .LUMP_PLANES => 1
  | .LUMP_NODES => 5
  | .LUMP_LEAFS => 10
  | .LUMP_LEAFBRUSHES => 17
  | .LUMP_BRUSHES => 18
  | .LUMP_BRUSHSIDES => 19

/-- The layout of the Source SDK `bspfile.h`: a header of 1036 bytes (`ident`,
`version`, 64 directory entries of 16 bytes, `mapRevision`), planes of 20 bytes, nodes of
32, leaves of 56 (version 0) and 32, brushes of 12, brush sides of 8. `floatOfBits`
reads a `float` from its 32-bit pattern. -/
def sdkFormat {F : Type} (floatOfBits : Nat → F) : BspFormat F where
  IDBSPHEADER := 1347633750
  sizeofHeader := 1036
  decodeHeader := fun b =>
    { ident := i32le b 0
      version := i32le b 4
      lumps := fun id => ⟨i32le b (8 + 16 * id.index), i32le b (12 + 16 * id.index)⟩ }
  sizeofPlane := 20
  decodePlane := fun b =>
    ⟨⟨floatOfBits (u32le b 0), floatOfBits (u32le b 4), floatOfBits (u32le b 8)⟩,
      floatOfBits (u32le b 12), i32le b 16⟩
  sizeofNode := 32
  decodeNode := fun b => ⟨i32le b 4, i32le b 8⟩
  sizeofLeafV0 := 56
  decodeLeafV0 := fun b => ⟨u16le b 24, u16le b 26⟩
  sizeofLeaf := 32
  decodeLeaf := fun b => ⟨u16le b 24, u16le b 26⟩
  sizeofBrush := 12
  decodeBrush := fun b => ⟨i32le b 0, i32le b 4, i32le b 8⟩
  sizeofBrushSide := 8
  decodeBrushSide := fun b => ⟨u16le b 0, i16le b 2, i16le b 4, i16le b 6⟩

/-- The four bytes of a 32-bit word, least significant first. -/
def le32 (x : Nat) : List Nat :=
  [x % 256, x / 256 % 256, x / 65536 % 256, x / 16777216 % 256]

/-- The 1036 bytes of an SDK header with the given version whose directory has the
listed `(index, fileofs, filelen)` entries and zeros elsewhere. -/
def sdkHeader (version : Nat) (dir : List (Nat × Nat × Nat)) : List Nat :=
  [86, 66, 83, 80] ++ le32 version
    ++ (List.range 64).flatMap (fun i =>
        match dir.find? (fun e => e.1 == i) with
        | some e => le32 e.2.1 ++ le32 e.2.2 ++ [0, 0, 0, 0, 0, 0, 0, 0]
        | none => List.replicate 16 0)
    ++ [0, 0, 0, 0]

/-! ## Notions used to state the properties -/

/-- The header of a file, as `LoadMapFile` decodes it from the first
`sizeof(dheader_t)` bytes. -/
def headerOf {F : Type} (fmt : BspFormat F) (data : List Nat) : dheader_t :=
  fmt.decodeHeader (data.take fmt.sizeofHeader)

/-- The seven lumps, in the order `LoadMapFile` reads them. -/
def requiredLumps : List LumpId :=
  [.LUMP_PLANES, .LUMP_NODES, .LUMP_LEAFS, .LUMP_LEAFBRUSHES, .LUMP_BRUSHES,
    .LUMP_BRUSHSIDES, .LUMP_ENTITIES]

/-- The record size `sizeof(T)` of the vector each lump is read into (lines 153-188);
the leaf record is selected by `header.version < 20`, the leaf-brush entries are
`uint16_t` and the entity text is `char`. -/
def recordSize {F : Type} (fmt : BspFormat F) (version : Int) : LumpId → Nat
  | .LUMP_PLANES => fmt.sizeofPlane
  | .LUMP_NODES => fmt.sizeofNode
  | .LUMP_LEAFS => if version < 20 then fmt.sizeofLeafV0 else fmt.sizeofLeaf
  | .LUMP_LEAFBRUSHES => 2
  | .LUMP_BRUSHES => fmt.sizeofBrush
  | .LUMP_BRUSHSIDES => fmt.sizeofBrushSide
  | .LUMP_ENTITIES => 1

/-- The sides `firstside .. firstside + numsides - 1` of a brush, in side order. -/
def brushSideList (brushsides : List dbrushside_t) (brush : dbrush_t) : List dbrushside_t :=
  (List.range' 0 brush.numsides.toNat).filterMap
    (fun (i : Nat) => getInt? brushsides (brush.firstside + (i : Int)))

/-- The pairs `(plane.normal, plane.dist)` of the sides of a list whose bevel flag is
zero, in the order of the list. -/
def halfSpacesOf {F : Type} (planes : List (dplane_t F)) (sides : List dbrushside_t) :
    List (VPlane F) :=
  (sides.filter (fun s => decide (s.bevel = 0))).filterMap
    (fun s => (planes[s.planenum]?).map (fun p => (⟨p.normal, p.dist⟩ : VPlane F)))

/-- A side read by the loop is in bounds: the read found a side, and a side that is not
a bevel names a plane inside `planes`. -/
def sideInBounds {F : Type} (planes : List (dplane_t F)) : Option dbrushside_t → Bool
  | none => false
  | some side => decide (side.bevel = 0 → side.planenum < planes.length)

/-- Every side index of the brush is inside `brushsides`, and every side that is not a
bevel names a plane inside `planes`. -/
def SidesInBounds {F : Type} (brushsides : List dbrushside_t) (planes : List (dplane_t F))
    (brush : dbrush_t) : Prop :=
  ∀ i, i < brush.numsides.toNat →
    sideInBounds planes (getInt? brushsides (brush.firstside + (i : Int))) = true

instance instDecidableSidesInBounds {F : Type} (brushsides : List dbrushside_t)
    (planes : List (dplane_t F)) (brush : dbrush_t) :
    Decidable (SidesInBounds brushsides planes brush) := by
  unfold SidesInBounds
  infer_instance

/-- The leaf array that `header.version < 20` selects. -/
def Lumps.selectedLeaves {F : Type} (l : Lumps F) : List dleaf_t :=
  if l.version < 20 then l.leaves_v0 else l.leaves

/-- A child reference is in bounds: a node index below the number of nodes, or a
negative reference whose leaf the selected leaf array has. -/
def RefInBounds {F : Type} (l : Lumps F) (c : Int) : Prop :=
  if 0 ≤ c then c.toNat < l.nodes.length
  else (leafAt l.version l.leaves_v0 l.leaves (-1 - c)).isSome = true

instance instDecidableRefInBounds {F : Type} (l : Lumps F) (c : Int) :
    Decidable (RefInBounds l c) := by
  unfold RefInBounds
  infer_instance

/-- The indices stored in the lumps are in bounds: there is a node 0, every child
reference is in bounds, every leaf's range of leaf-brush entries lies inside
`leafbrushes`, every leaf-brush entry is a brush, and the sides and planes of every
solid brush are in bounds. -/
structure InBounds {F : Type} (l : Lumps F) : Prop where
  root : 0 < l.nodes.length
  children : ∀ n ∈ l.nodes, RefInBounds l n.children0 ∧ RefInBounds l n.children1
  leafRange : ∀ leaf ∈ l.selectedLeaves, ∀ i, i < leaf.numleafbrushes →
    leaf.firstleafbrush + i < l.leafbrushes.length
  leafbrushes : ∀ b ∈ l.leafbrushes, b < l.brushes.length
  sides : ∀ brush ∈ l.brushes, contentsSolidBits brush.contents ≠ 0 →
    SidesInBounds l.brushsides l.planes brush

/-- The traversal on the arrays of a load. -/
def Lumps.traverse {F : Type} (l : Lumps F) (fuel : Nat) : Except Fault (List Nat) :=
  Spt.traverse l.version l.nodes l.leaves_v0 l.leaves l.leafbrushes fuel

/-- Every side of the list that is not a bevel names a plane whose type is at most 2. -/
def NonBevelAxial {F : Type} (planes : List (dplane_t F)) (sides : List dbrushside_t) : Prop :=
  ∀ s ∈ sides, s.bevel = 0 → ∀ p, planes[s.planenum]? = some p → p.type ≤ 2

/-- The colour the callback passes to `AddCPolyhedron` for a given `isBox`. -/
def brushColor (isBox ztest : Bool) : ShapeColor :=
  { (if isBox then SC_BOX_BRUSH else SC_COMPLEX_BRUSH) with zTestFaces := ztest }

/-- The traversal loop with a record of the leaf references it processed, in order.
It is `traverseLoop` with the list `trace` carried along. -/
def traverseLoopTrace (version : Int) (nodes : List dnode_t) (leaves_v0 leaves : List dleaf_t)
    (leafbrushes : List Nat) :
    Nat → Int → List Nat → List Nat → List Int → Except Fault (List Nat × List Int)
  | 0, _, _, _, _ => .error .fuel
  | fuel + 1, curr, s, set, trace =>
    if 0 ≤ curr ∨ s ≠ [] then
      match descend nodes (fuel + 1) curr s with
      | .error e => .error e
      | .ok (curr1, s1) =>
        match leafAt version leaves_v0 leaves (-1 - curr1) with
        | none => .error .outOfBounds
        | some leaf =>
          match insertLeafBrushes leafbrushes leaf.numleafbrushes leaf.firstleafbrush set with
          | .error e => .error e
          | .ok set1 =>
            match s1 with
            | [] => .error .emptyStack
            | top :: s2 =>
              match nodes[top]? with
              | none => .error .outOfBounds
              | some n =>
                traverseLoopTrace version nodes leaves_v0 leaves leafbrushes fuel n.children1 s2
                  set1 (trace ++ [curr1])
    else .ok (set, trace)

/-- The leaf references under the reference `c`, in the order of a depth-first walk
that takes the first child before the second; `none` when the walk goes deeper than
`d` nodes or meets a node index outside the array. A value for some `d` says that the
tree under `c` is finite and acyclic with its node references in bounds. -/
def subtreeLeaves (nodes : List dnode_t) : Nat → Int → Option (List Int)
  | 0, c => if c < 0 then some [c] else none
  | d + 1, c =>
    if c < 0 then some [c]
    else
      match nodes[c.toNat]? with
      | none => none
      | some n =>
        match subtreeLeaves nodes d n.children0, subtreeLeaves nodes d n.children1 with
        | some a, some b => some (a ++ b)
        | _, _ => none

/-- The leaf references still to come from the stack: for each pushed node, from the
top down, the leaves under its second child. -/
def stackLeaves (nodes : List dnode_t) (d : Nat) : List Nat → Option (List Int)
  | [] => some []
  | x :: s =>
    match nodes[x]? with
    | none => none
    | some n =>
      match subtreeLeaves nodes d n.children1, stackLeaves nodes d s with
      | some a, some r => some (a ++ r)
      | _, _ => none

/-- The leaf of the reference `c` exists in the selected leaf array and its range of
leaf-brush entries lies inside `leafbrushes`. -/
def leafInBounds (version : Int) (leaves_v0 leaves : List dleaf_t) (leafbrushes : List Nat)
    (c : Int) : Bool :=
  match leafAt version leaves_v0 leaves (-1 - c) with
  | none => false
  | some leaf =>
    decide (∀ i, i < leaf.numleafbrushes → leaf.firstleafbrush + i < leafbrushes.length)

/-- The brush index `b` is one of the entries `leafbrushes[first + i]`, `0 <= i < count`,
of the leaf of the reference `c`. -/
def IsLeafBrush (version : Int) (leaves_v0 leaves : List dleaf_t) (leafbrushes : List Nat)
    (c : Int) (b : Nat) : Prop :=
  ∃ leaf, leafAt version leaves_v0 leaves (-1 - c) = some leaf
    ∧ ∃ i, i < leaf.numleafbrushes ∧ leafbrushes[leaf.firstleafbrush + i]? = some b

/-- The text of the entity lump as the string functions see it: the characters before
the first NUL. -/
def lumpText (buf : List Nat) : List Nat := buf.takeWhile (fun c => decide (c ≠ 0))

/-- The pair `"classname" "info_landmark"` the scan looks for. -/
def landmarkPair : List Nat := cstr "\"classname\" \"info_landmark\""

/-- The block end the scan looks for: a newline followed by a closing brace. -/
def blockEnd : List Nat := cstr "\n\x7d"

/-- The number of positions of `text` at which `needle` stands. -/
def countSub {α : Type} [DecidableEq α] (needle : List α) : List α → Nat
  | [] => 0
  | c :: cs => (if startsWith needle (c :: cs) then 1 else 0) + countSub needle cs

/-- The landmark pair stands at position `o` of the text and no block end stands at
or after `o`. -/
def Unclosed (text : List Nat) (o : Nat) : Prop :=
  startsWith landmarkPair (text.drop o) = true
    ∧ ∀ e, o ≤ e → startsWith blockEnd (text.drop e) = false

/-! ## The C runtime scans, for the examples -/

/-- The C `isspace` on a character code. -/
def isSpace (c : Nat) : Bool := c == 32 || (decide (9 ≤ c) && decide (c ≤ 13))

/-- A literal of a scanf format matched at the head of the input: the rest of the
input. -/
def matchLiteral (lit inp : List Nat) : Option (List Nat) :=
  if startsWith lit inp then some (inp.drop lit.length) else none

/-- The white space a scanf directive skips. -/
def skipSpaces (inp : List Nat) : List Nat := inp.dropWhile isSpace

/-- The value of a run of decimal digits. -/
def digitsValue (ds : List Nat) : Nat := ds.foldl (fun acc d => 10 * acc + (d - 48)) 0

/-- The directive `%f` on a number written as an optional sign and decimal digits: the
value and the rest of the input. -/
def scanNumber (inp : List Nat) : Option (Int × List Nat) :=
  let signed : Bool × List Nat :=
    match skipSpaces inp with
    | 45 :: r => (true, r)
    | 43 :: r => (false, r)
    | r => (false, r)
  let ds := signed.2.takeWhile (fun c => decide (48 ≤ c) && decide (c ≤ 57))
  if ds = [] then none
  else some (if signed.1 then -(digitsValue ds : Int) else (digitsValue ds : Int),
    signed.2.drop ds.length)

/-- The call `_snscanf_s(input, n, "\"origin\" \"%f %f %f\"", &pos.x, &pos.y, &pos.z)`
on coordinates written as integers. -/
def crtScanOrigin (inp : List Nat) (pos : Vector Int) : Nat × Vector Int :=
  match matchLiteral (cstr "\"origin\"") (inp.takeWhile (fun c => decide (c ≠ 0))) with
  | none => (0, pos)
  | some r1 =>
    match matchLiteral (cstr "\"") (skipSpaces r1) with
    | none => (0, pos)
    | some r2 =>
      match scanNumber r2 with
      | none => (0, pos)
      | some (x, r3) =>
        match scanNumber r3 with
        | none => (1, { pos with x := x })
        | some (y, r4) =>
          match scanNumber r4 with
          | none => (2, { pos with x := x, y := y })
          | some (z, _) => (3, ⟨x, y, z⟩)

/-- The call `_snscanf_s(input, n, "\"targetname\" \"%s", landmarkName, 256)`. -/
def crtScanTargetname (inp : List Nat) : Option String :=
  match matchLiteral (cstr "\"targetname\"") (inp.takeWhile (fun c => decide (c ≠ 0))) with
  | none => none
  | some r1 =>
    match matchLiteral (cstr "\"") (skipSpaces r1) with
    | none => none
    | some r2 =>
      let word := (skipSpaces r2).takeWhile (fun c => !isSpace c)
      if word = [] ∨ 256 ≤ word.length + 1 then none
      else some (String.mk (word.map Char.ofNat))

/-- The two scans on integer coordinates. -/
def crtScanf : Scanf Int := ⟨crtScanOrigin, crtScanTargetname⟩

/-! ## Concrete inputs -/

/-- An environment on the SDK format with `Int` for the floats, the given files and
the given loaded map; the polyhedron routine returns the number of planes it got. -/
def sampleEnv (files : String → Option (List Nat)) (loadedMap : String)
    (loadedLandmarks : SptLandmarkList Int) : Env Int Nat where
  files := files
  fmt := sdkFormat (fun n => (n : Int))
  scanf := ⟨fun _ pos => (0, pos), fun _ => none⟩
  DoesGameLookLikeDMoMM := false
  GeneratePolyhedronFromPlanes := fun vplanes => some vplanes.length
  AddCPolyhedron := fun _ _ => true
  GetLoadedMap := loadedMap
  GetLandmarksInLoadedMap := loadedLandmarks

/-- A directory that holds the single file `name`. -/
def oneFile (name : String) (data : List Nat) : String → Option (List Nat) :=
  fun n => if n = name then some data else none

/-- An object that shows the map `old`: one mesh, one landmark, a cached offset. -/
def loadedState : MapOverlay Int Nat where
  meshes := [(6, SC_BOX_BRUSH)]
  lastLoadedFile := "old"
  createdWithZTestMaterial := true
  bspLandmarks := [("start", ⟨1, 2, 3⟩)]
  cachedLandmarkOffset := ⟨5, 0, 0⟩
  landmarkOffsetCachedFrom := "here"

/-- The smallest tree with two leaves: node 0 with the leaves 0 and 1 as children. -/
def twoLeafNodes : List dnode_t := [⟨-1, -2⟩]

/-- Leaf 0 holds the leaf-brush entry 0, leaf 1 the entry 1. -/
def twoLeaves : List dleaf_t := [⟨0, 1⟩, ⟨1, 1⟩]

/-- A complete SDK header with the right magic and the version 21. -/
def version21File : List Nat := sdkHeader 21 []

/-- A file of 1100 bytes: the header, one node whose two children are leaf 0, and one
leaf without brushes. The entity lump is declared with length 0 at offset 5000, past
the end of the file; the other lumps the directory does not list are empty at
offset 0. -/
def farLumpFile : List Nat :=
  sdkHeader 20 [(5, 1036, 32), (10, 1068, 32), (0, 5000, 0)]
    ++ ([0, 0, 0, 0] ++ le32 4294967295 ++ le32 4294967295 ++ List.replicate 20 0)
    ++ List.replicate 32 0

/-- A file that ends after its header, while the header declares a plane lump of 20
bytes at offset 1036. -/
def truncatedFile : List Nat := sdkHeader 20 [(1, 1036, 20)]

/-- A file that ends after its header, while the header declares a plane lump of 5
bytes, less than one plane record, at offset 1033: three bytes of it are in the file. -/
def partialRecordFile : List Nat := sdkHeader 20 [(1, 1033, 5)]

/-- The arrays of a small map: node 0 with the leaves 0 and 1, which list the brushes 0
and 1. Brush 0 is solid with the sides 0 and 1, of which side 1 is a bevel; brush 1 is
not solid. -/
def sampleLumps : Lumps Int where
  version := 20
  planes := [⟨⟨1, 0, 0⟩, 4, 0⟩, ⟨⟨0, 1, 0⟩, 5, 3⟩]
  nodes := twoLeafNodes
  leaves_v0 := []
  leaves := twoLeaves
  leafbrushes := [0, 1]
  brushes := [⟨0, 2, 1⟩, ⟨0, 6, 0⟩]
  brushsides := [⟨0, 0, 0, 0⟩, ⟨1, 0, 0, 1⟩]
  ents := []

/-- A file whose header is complete and valid and whose lumps are all empty. -/
def emptyLumpsFile : List Nat := sdkHeader 20 []

/-- A polyhedron routine for the examples: it returns the number of planes it got. -/
def countPlanes (vplanes : List (VPlane Int)) : Option Nat := some vplanes.length

/-- A solid brush of six sides, none a bevel, that all name plane 0. -/
def sixSideBrushes : List dbrush_t := [⟨0, 6, 1⟩]

/-- Six sides that are not bevels and name plane 0. -/
def sixSides : List dbrushside_t := List.replicate 6 ⟨0, 0, 0, 0⟩

/-- One plane whose type field holds the value -1. -/
def negativeTypePlanes : List (dplane_t Int) := [⟨⟨1, 0, 0⟩, 0, -1⟩]

/-- An object that shows the file `old`, whose only landmark is `start` at the origin,
with nothing cached. -/
def startState : MapOverlay Int Nat where
  meshes := [(6, SC_BOX_BRUSH)]
  lastLoadedFile := "old"
  createdWithZTestMaterial := true
  bspLandmarks := [("start", ⟨0, 0, 0⟩)]
  cachedLandmarkOffset := ⟨7, 7, 7⟩
  landmarkOffsetCachedFrom := ""

/-- An object that shows the file `ab`, whose only landmark is `start` at the origin,
with nothing cached. -/
def sameMapState : MapOverlay Int Nat where
  meshes := [(6, SC_BOX_BRUSH)]
  lastLoadedFile := "ab"
  createdWithZTestMaterial := true
  bspLandmarks := [("start", ⟨0, 0, 0⟩)]
  cachedLandmarkOffset := ⟨7, 7, 7⟩
  landmarkOffsetCachedFrom := ""

/-- A coordinate type for an example with the values of a `float` that are not finite:
integers, the two infinities and NaN. -/
inductive Coord where
  | fin (z : Int)
  | posInf
  | negInf
  | nan
  deriving DecidableEq, Repr

/-- The subtraction of IEEE 754 on these values: NaN when an operand is NaN or when an
infinity is subtracted from itself. -/
def Coord.sub : Coord → Coord → Coord
  | .nan, _ => .nan
  | _, .nan => .nan
  | .fin a, .fin b => .fin (a - b)
  | .fin _, .posInf => .negInf
  | .fin _, .negInf => .posInf
  | .posInf, .posInf => .nan
  | .posInf, _ => .posInf
  | .negInf, .negInf => .nan
  | .negInf, _ => .negInf

instance instZeroCoord : Zero Coord := ⟨.fin 0⟩

instance instSubCoord : Sub Coord := ⟨Coord.sub⟩

/-- A tree of two nodes and three leaves: node 0 has leaf 0 and node 1 as children,
node 1 has the leaves 1 and 2. -/
def threeLeafNodes : List dnode_t := [⟨-1, 1⟩, ⟨-2, -3⟩]

/-- Leaf 0 holds the leaf-brush entries 0 and 1, leaf 1 the entries 2 and 3, leaf 2
none. -/
def threeLeaves : List dleaf_t := [⟨0, 2⟩, ⟨2, 2⟩, ⟨4, 0⟩]

/-- An entity lump of one landmark block whose last line is the `targetname` line. -/
def targetnameLastLump : List Nat :=
  cstr "\x7b\n\"origin\" \"1 2 3\"\n\"classname\" \"info_landmark\"\n\"targetname\" \"lm\"\n\x7d\n"
    ++ [0]

/-- The same block with the `targetname` line before the `classname` line. -/
def targetnameFirstLump : List Nat :=
  cstr "\x7b\n\"origin\" \"1 2 3\"\n\"targetname\" \"lm\"\n\"classname\" \"info_landmark\"\n\x7d\n"
    ++ [0]

/-- The same block with the `origin` line last. -/
def originLastLump : List Nat :=
  cstr "\x7b\n\"targetname\" \"lm\"\n\"classname\" \"info_landmark\"\n\"origin\" \"1 2 3\"\n\x7d\n"
    ++ [0]

/-- An entity lump of one block that names the landmark class twice. -/
def doubleClassLump : List Nat :=
  cstr "\x7b\n\"targetname\" \"lm\"\n\"classname\" \"info_landmark\"\n\"classname\" \"info_landmark\"\n\x7d\n"
    ++ [0]

/-- An entity lump that begins with the class pair, with no block around it. -/
def pairAtStartLump : List Nat := cstr "\"classname\" \"info_landmark\"" ++ [0]

/-- A file of the SDK format that holds one node whose two children are leaf 0, one
leaf without brushes, and the given entity lump; the other lumps are empty. -/
def fileWithEntities (ents : List Nat) : List Nat :=
  sdkHeader 20 [(5, 1036, 32), (10, 1068, 32), (0, 1100, ents.length)]
    ++ ([0, 0, 0, 0] ++ le32 4294967295 ++ le32 4294967295 ++ List.replicate 20 0)
    ++ List.replicate 32 0
    ++ ents

/-- The environment `sampleEnv` with the C runtime scans `crtScanf`. -/
def crtEnv (files : String → Option (List Nat)) : Env Int Nat :=
  { sampleEnv files "here" [] with scanf := crtScanf }

/-- An entity lump whose only block names the landmark class and is never closed. -/
def unclosedLump : List Nat := cstr "\x7b\n\"classname\" \"info_landmark\"\n" ++ [0]

/-- The number of nodes between node 0 and node 65536. -/
def fillerCount : Nat := 65535

/-- A tree of 65537 nodes: node 0 has leaf 0 and node 65536 as children, node 65536 has
leaf 0 twice, and the nodes in between, which the tree does not reach, have leaf 0
twice. -/
def bigNodes : List dnode_t :=
  ⟨-1, 65536⟩ :: (List.replicate fillerCount ⟨-1, -1⟩ ++ [⟨-1, -1⟩])

/-! ## Properties -/

/-- C1, the code at a failing input: on the tree whose node 0 has the leaves 0 and 1
as children, with leaf-brush entries `[3, 5]`, leaf 0 holding entry 0 and leaf 1
holding entry 1, the traversal ends with the set `[3]` whatever fuel it is given
beyond two iterations. Brush 5 of the reachable leaf 1 is missing: the loop exits when
the stack is empty and the current reference is the last leaf, before that leaf is
processed. -/
theorem traverse_skips_last_leaf (k : Nat) :
    traverse 20 twoLeafNodes [] twoLeaves [3, 5] (k + 2) = .ok [3]
      ∧ twoLeafNodes[0]? = some ⟨-1, -2⟩
      ∧ leafAt 20 [] twoLeaves (-1 - (-2)) = some ⟨1, 1⟩
      ∧ [3, 5][1]? = some 5 := by
  refine ⟨?_, rfl, rfl, rfl⟩
  rfl

/-- C2, the code at a failing input: loading a file that cannot be opened, on an
object that shows another map, returns failure with `Cannot open file.` and leaves the
meshes, `lastLoadedFile`, `createdWithZTestMaterial` and the cached offset as they
were, but the landmark list of the shown map is emptied and the cache key is cleared. -/
theorem LoadMapFile_failure_clears_landmarks (fuel : Nat) :
    loadedState.LoadMapFile (sampleEnv (fun _ => none) "here" []) fuel "missing" true
      = (.fail .cannotOpen,
          { loadedState with bspLandmarks := [], landmarkOffsetCachedFrom := "" })
      ∧ loadedState.bspLandmarks ≠ []
      ∧ loadedState.landmarkOffsetCachedFrom ≠ "" := by
  refine ⟨?_, by decide, by decide⟩
  rfl

/-! ### Reading the header and the lumps -/

theorem READ_BYTES_start (data : List Nat) (n : Nat) (h : n ≤ data.length) :
    READ_BYTES ⟨data, 0⟩ n n = .ok (data.take n, ⟨data, n⟩) := by
  simp [READ_BYTES, List.length_take, h]

theorem versionSupported_false (v : Int) (h20 : v ≠ 20) (h19 : v ≠ 19) :
    versionSupported false v = false := by
  simp [versionSupported, h20, h19]

/-- C3: when the call does read the file (it is not the no-reload case and the file
opens), the file holds a complete header with the right magic, the header version is
neither 19 nor 20 and the game check is false, then `LoadMapFile` fails with
`Unsupported bsp version.` and the meshes are the ones before the call. -/
theorem LoadMapFile_unsupported_version {F P : Type} [Zero F] (env : Env F P) (fuel : Nat)
    (self : MapOverlay F P) (filename : String) (ztest : Bool) (data : List Nat)
    (hreload : self.noNeedToReload filename ztest = false)
    (hopen : env.files filename = some data)
    (hheader : env.fmt.sizeofHeader ≤ data.length)
    (hmagic : (headerOf env.fmt data).ident = env.fmt.IDBSPHEADER)
    (h20 : (headerOf env.fmt data).version ≠ 20)
    (h19 : (headerOf env.fmt data).version ≠ 19)
    (hgame : env.DoesGameLookLikeDMoMM = false) :
    (self.LoadMapFile env fuel filename ztest).1 = .fail .unsupportedVersion
      ∧ LoadError.message .unsupportedVersion = "Unsupported bsp version."
      ∧ (self.LoadMapFile env fuel filename ztest).2.meshes = self.meshes := by
  unfold headerOf at hmagic h20 h19
  have hv := versionSupported_false _ h20 h19
  simp [MapOverlay.LoadMapFile, hreload, hopen, readLumps, READ_BYTES_start _ _ hheader,
    hmagic, hgame, hv, LoadResult.ofAbort, LoadError.message]

set_option maxRecDepth 100000 in
/-- Witness of C3: a file of the SDK format with version 21, loaded over a shown map. -/
theorem LoadMapFile_unsupported_version_witness :
    (loadedState.LoadMapFile (sampleEnv (oneFile "v21" version21File) "here" []) 5 "v21" true).1
        = .fail .unsupportedVersion
      ∧ LoadError.message .unsupportedVersion = "Unsupported bsp version."
      ∧ (loadedState.LoadMapFile (sampleEnv (oneFile "v21" version21File) "here" []) 5 "v21"
          true).2.meshes = loadedState.meshes :=
  LoadMapFile_unsupported_version (sampleEnv (oneFile "v21" version21File) "here" []) 5
    loadedState "v21" true version21File (by decide) (by decide) (by decide!) (by decide!)
    (by decide!) (by decide!) rfl

theorem readLump_cases (size : Nat) (f : IfStream) (l : lump_t) (hlen : 0 ≤ l.filelen)
    (hmult : size ∣ l.filelen.toNat) :
    readLump size f l = .error (.error .unexpectedEOF)
      ∨ ∃ b f1, readLump size f l = .ok (b, f1) ∧ f1.data = f.data
          ∧ ¬ (0 < l.filelen ∧ (f.data.length : Int) < l.fileofs + l.filelen) := by
  have hcap : l.filelen.toNat / size * size = l.filelen.toNat := Nat.div_mul_cancel hmult
  unfold readLump SEEK_TO_BYTE
  by_cases hofs : 0 ≤ l.fileofs
  · simp only [hofs, if_true, not_lt.mpr hlen, if_false]
    unfold READ_BYTES
    simp only [List.length_take, List.length_drop, hcap]
    have hfits : ¬ l.filelen.toNat < min l.filelen.toNat (f.data.length - l.fileofs.toNat) :=
      not_lt.mpr (Nat.min_le_left _ _)
    simp only [hfits, if_false]
    by_cases hfit : min l.filelen.toNat (f.data.length - l.fileofs.toNat) = l.filelen.toNat
    · right
      simp only [hfit, if_true]
      refine ⟨_, _, rfl, rfl, ?_⟩
      rintro ⟨hpos, hpast⟩
      have h1 : l.filelen.toNat ≤ f.data.length - l.fileofs.toNat := by
        rw [← hfit]; exact Nat.min_le_right _ _
      omega
    · left
      simp [hfit]
  · left
    simp [hofs]

theorem readLump_ok_whole_records (size : Nat) (f : IfStream) (l : lump_t) (b : List Nat)
    (f1 : IfStream) (h : readLump size f l = .ok (b, f1)) :
    b.length = l.filelen.toNat ∧ b.length / size * size = b.length := by
  unfold readLump SEEK_TO_BYTE at h
  by_cases hofs : 0 ≤ l.fileofs
  · simp only [hofs, if_true] at h
    by_cases hneg : l.filelen < 0
    · simp [hneg] at h
    · simp only [hneg, if_false] at h
      unfold READ_BYTES at h
      simp only at h
      split_ifs at h with h1 h2
      simp only [Except.ok.injEq, Prod.mk.injEq] at h
      have hb : b.length = l.filelen.toNat := by rw [← h.1]; exact h2
      refine ⟨hb, ?_⟩
      rw [hb]
      rw [h2] at h1
      exact Nat.le_antisymm (Nat.div_mul_le_self _ _) (not_lt.mp h1)
  · simp [hofs] at h

theorem readLumps_unexpectedEOF {F : Type} (fmt : BspFormat F) (isDMoMM : Bool)
    (data : List Nat) (hheader : fmt.sizeofHeader ≤ data.length)
    (hmagic : (headerOf fmt data).ident = fmt.IDBSPHEADER)
    (hversion : versionSupported isDMoMM (headerOf fmt data).version = true)
    (hlen : ∀ id ∈ requiredLumps, 0 ≤ ((headerOf fmt data).lumps id).filelen)
    (hmult : ∀ id ∈ requiredLumps,
      recordSize fmt (headerOf fmt data).version id
        ∣ ((headerOf fmt data).lumps id).filelen.toNat)
    (hpast : ∃ id ∈ requiredLumps, 0 < ((headerOf fmt data).lumps id).filelen
      ∧ (data.length : Int)
          < ((headerOf fmt data).lumps id).fileofs + ((headerOf fmt data).lumps id).filelen) :
    readLumps fmt isDMoMM data = .error (.error .unexpectedEOF) := by
  unfold headerOf at hmagic hversion hlen hmult hpast
  simp only [requiredLumps, List.mem_cons, List.mem_singleton, List.not_mem_nil, or_false,
    forall_eq_or_imp, forall_eq, exists_eq_or_imp, exists_eq_left, List.forall_mem_cons,
    List.exists_mem_cons_iff, recordSize] at hlen hmult hpast
  obtain ⟨l1, l2, l3, l4, l5, l6, l7⟩ := hlen
  obtain ⟨m1, m2, m3, m4, m5, m6, m7⟩ := hmult
  unfold readLumps
  simp only [READ_BYTES_start _ _ hheader, hmagic, ne_eq, not_true_eq_false, if_false,
    hversion, Bool.not_true, Bool.false_eq_true]
  rcases readLump_cases _ ⟨data, fmt.sizeofHeader⟩ _ l1 m1 with h1 | ⟨b1, f1, h1, d1, n1⟩
  · simp only [h1]
  simp only [h1]
  rcases readLump_cases _ f1 _ l2 m2 with h2 | ⟨b2, f2, h2, d2, n2⟩
  · simp only [h2]
  simp only [h2]
  rcases readLump_cases _ f2 _ l3 m3 with h3 | ⟨b3, f3, h3, d3, n3⟩
  · simp only [h3]
  simp only [h3]
  rcases readLump_cases _ f3 _ l4 m4 with h4 | ⟨b4, f4, h4, d4, n4⟩
  · simp only [h4]
  simp only [h4]
  rcases readLump_cases _ f4 _ l5 m5 with h5 | ⟨b5, f5, h5, d5, n5⟩
  · simp only [h5]
  simp only [h5]
  rcases readLump_cases _ f5 _ l6 m6 with h6 | ⟨b6, f6, h6, d6, n6⟩
  · simp only [h6]
  simp only [h6]
  rcases readLump_cases _ f6 _ l7 m7 with h7 | ⟨b7, f7, h7, d7, n7⟩
  · simp only [h7]
  exfalso
  rw [d6, d5, d4, d3, d2, d1] at n7
  rw [d5, d4, d3, d2, d1] at n6
  rw [d4, d3, d2, d1] at n5
  rw [d3, d2, d1] at n4
  rw [d2, d1] at n3
  rw [d1] at n2
  simp only at n1 n2 n3 n4 n5 n6 n7
  rcases hpast with h | h | h | h | h | h | h
  · exact n1 h
  · exact n2 h
  · exact n3 h
  · exact n4 h
  · exact n5 h
  · exact n6 h
  · exact n7 h

set_option maxRecDepth 100000 in
/-- The file `partialRecordFile` passes the magic and version checks and declares 5
bytes of planes at offset 1033 of its 1036 bytes. The plane vector is sized to 5 / 20 = 0
records and the read stores the three bytes the file has into it, past its storage,
before the count is tested. -/
theorem partial_record_lump_writes_past_vector :
    (headerOf (sdkFormat (fun n => (n : Int))) partialRecordFile).ident = 1347633750
      ∧ versionSupported false
          (headerOf (sdkFormat (fun n => (n : Int))) partialRecordFile).version = true
      ∧ (headerOf (sdkFormat (fun n => (n : Int))) partialRecordFile).lumps .LUMP_PLANES
          = ⟨1033, 5⟩
      ∧ partialRecordFile.length = 1036
      ∧ (loadedState.LoadMapFile (sampleEnv (oneFile "part" partialRecordFile) "here" []) 5
          "part" true).1 = .fault .outOfBounds := by
  refine ⟨by decide!, by decide!, by decide!, by decide!, by decide!⟩

set_option maxRecDepth 100000 in
/-- C4, counterexample: the file `farLumpFile` passes the magic and version checks and
declares its entity lump at offset 5000 with length 0, so that offset + length exceeds
the 1100 bytes of the file; `LoadMapFile` nevertheless succeeds. -/
theorem zero_length_lump_past_end_loads :
    (headerOf (sdkFormat (fun n => (n : Int))) farLumpFile).ident = 1347633750
      ∧ versionSupported false (headerOf (sdkFormat (fun n => (n : Int))) farLumpFile).version
          = true
      ∧ (farLumpFile.length : Int)
          < ((headerOf (sdkFormat (fun n => (n : Int))) farLumpFile).lumps .LUMP_ENTITIES).fileofs
            + ((headerOf (sdkFormat (fun n => (n : Int))) farLumpFile).lumps
                .LUMP_ENTITIES).filelen
      ∧ (loadedState.LoadMapFile (sampleEnv (oneFile "far" farLumpFile) "here" []) 5 "far"
          true).1 = .ok := by
  refine ⟨by decide!, by decide!, by decide!, by decide!⟩

/-- C4, amended: when the call does read the file, the header passes the magic and
version checks, declares no negative length for a required lump and declares for
every required lump a length that is a multiple of the record size of the vector the
lump is read into, and some required lump has a positive length with offset + length
beyond the size of the file, then `LoadMapFile` fails with `Unexpected EOF.`. -/
theorem LoadMapFile_lump_past_end {F P : Type} [Zero F] (env : Env F P) (fuel : Nat)
    (self : MapOverlay F P) (filename : String) (ztest : Bool) (data : List Nat)
    (hreload : self.noNeedToReload filename ztest = false)
    (hopen : env.files filename = some data)
    (hheader : env.fmt.sizeofHeader ≤ data.length)
    (hmagic : (headerOf env.fmt data).ident = env.fmt.IDBSPHEADER)
    (hversion : versionSupported env.DoesGameLookLikeDMoMM (headerOf env.fmt data).version = true)
    (hlen : ∀ id ∈ requiredLumps, 0 ≤ ((headerOf env.fmt data).lumps id).filelen)
    (hmult : ∀ id ∈ requiredLumps,
      recordSize env.fmt (headerOf env.fmt data).version id
        ∣ ((headerOf env.fmt data).lumps id).filelen.toNat)
    (hpast : ∃ id ∈ requiredLumps, 0 < ((headerOf env.fmt data).lumps id).filelen
      ∧ (data.length : Int) < ((headerOf env.fmt data).lumps id).fileofs
          + ((headerOf env.fmt data).lumps id).filelen) :
    (self.LoadMapFile env fuel filename ztest).1 = .fail .unexpectedEOF
      ∧ LoadError.message .unexpectedEOF = "Unexpected EOF." := by
  have h := readLumps_unexpectedEOF env.fmt env.DoesGameLookLikeDMoMM data hheader hmagic
    hversion hlen hmult hpast
  simp [MapOverlay.LoadMapFile, hreload, hopen, h, LoadResult.ofAbort, LoadError.message]

set_option maxRecDepth 100000 in
/-- Witness of C4: a file that ends after its header and declares 20 bytes of planes. -/
theorem LoadMapFile_lump_past_end_witness :
    (loadedState.LoadMapFile (sampleEnv (oneFile "cut" truncatedFile) "here" []) 5 "cut"
        true).1 = .fail .unexpectedEOF
      ∧ LoadError.message .unexpectedEOF = "Unexpected EOF." :=
  LoadMapFile_lump_past_end (sampleEnv (oneFile "cut" truncatedFile) "here" []) 5
    loadedState "cut" true truncatedFile (by decide) (by decide) (by decide!) (by decide!)
    (by decide!) (by decide!) (by decide!) ⟨.LUMP_PLANES, by decide, by decide!, by decide!⟩

/-! ### The traversal and the callback stay in bounds -/

theorem mem_setInsert (a b : Nat) (l : List Nat) : b ∈ setInsert a l ↔ b = a ∨ b ∈ l := by
  induction l with
  | nil => simp [setInsert]
  | cons x xs ih =>
    unfold setInsert
    split_ifs with h1 h2
    · simp
    · subst h2; simp
    · simp only [List.mem_cons, ih]; tauto

theorem getInt?_mem {α : Type} (xs : List α) (i : Int) (x : α) (h : getInt? xs i = some x) :
    x ∈ xs := by
  unfold getInt? at h
  split_ifs at h
  exact List.getElem?_mem h

theorem leafAt_mem {F : Type} (l : Lumps F) (i : Int) (leaf : dleaf_t)
    (h : leafAt l.version l.leaves_v0 l.leaves i = some leaf) : leaf ∈ l.selectedLeaves := by
  unfold leafAt at h
  unfold Lumps.selectedLeaves
  split_ifs at h ⊢ <;> exact getInt?_mem _ _ _ h

theorem insertLeafBrushes_in_bounds (lb : List Nat) (k idx : Nat) (set : List Nat)
    (h : ∀ i, i < k → idx + i < lb.length) :
    ∃ set1, insertLeafBrushes lb k idx set = .ok set1 ∧ ∀ b ∈ set1, b ∈ set ∨ b ∈ lb := by
  induction k generalizing idx set with
  | zero => exact ⟨set, rfl, fun b hb => Or.inl hb⟩
  | succ k ih =>
    have h0 : idx < lb.length := by simpa using h 0 (Nat.succ_pos k)
    obtain ⟨set1, h1, h2⟩ := ih (idx + 1) (setInsert lb[idx] set)
      (fun i hi => by have := h (i + 1) (Nat.succ_lt_succ hi); omega)
    refine ⟨set1, ?_, ?_⟩
    · simp only [insertLeafBrushes, List.getElem?_eq_getElem h0, h1]
    · intro b hb
      rcases h2 b hb with h3 | h3
      · rcases (mem_setInsert _ _ _).1 h3 with h4 | h4
        · right; rw [h4]; exact List.getElem_mem h0
        · left; exact h4
      · right; exact h3

theorem descend_in_bounds {F : Type} (l : Lumps F) (hl : InBounds l) (fuel : Nat) (curr : Int)
    (s : List Nat) (hc : RefInBounds l curr) (hs : ∀ x ∈ s, x < l.nodes.length) :
    descend l.nodes fuel curr s = .error .fuel
      ∨ ∃ c1 s1, descend l.nodes fuel curr s = .ok (c1, s1)
          ∧ (leafAt l.version l.leaves_v0 l.leaves (-1 - c1)).isSome = true
          ∧ (∀ x ∈ s1, x < l.nodes.length)
          ∧ ((0 ≤ curr ∨ s ≠ []) → s1 ≠ []) := by
  induction fuel generalizing curr s with
  | zero => left; rfl
  | succ fuel ih =>
    unfold descend
    by_cases h0 : 0 ≤ curr
    · have hlt : curr.toNat < l.nodes.length := by
        unfold RefInBounds at hc; simpa [h0] using hc
      simp only [h0, if_true, List.getElem?_eq_getElem hlt]
      have hmem : l.nodes[curr.toNat] ∈ l.nodes := List.getElem_mem hlt
      have hs1 : ∀ x ∈ (curr.toNat % 65536) :: s, x < l.nodes.length := by
        intro x hx
        rcases List.mem_cons.1 hx with h | h
        · rw [h]; exact lt_of_le_of_lt (Nat.mod_le _ _) hlt
        · exact hs x h
      rcases ih _ _ (hl.children _ hmem).1 hs1 with h | ⟨c1, s1, h1, h2, h3, h4⟩
      · left; exact h
      · right
        exact ⟨c1, s1, h1, h2, h3, fun _ => h4 (Or.inr (List.cons_ne_nil _ _))⟩
    · right
      simp only [h0, if_false]
      refine ⟨curr, s, rfl, ?_, hs, ?_⟩
      · unfold RefInBounds at hc; simpa [h0] using hc
      · intro h
        simpa [h0] using h

theorem traverseLoop_in_bounds {F : Type} (l : Lumps F) (hl : InBounds l) (fuel : Nat)
    (curr : Int) (s set : List Nat) (hc : RefInBounds l curr)
    (hs : ∀ x ∈ s, x < l.nodes.length) (hset : ∀ b ∈ set, b ∈ l.leafbrushes) :
    traverseLoop l.version l.nodes l.leaves_v0 l.leaves l.leafbrushes fuel curr s set
        = .error .fuel
      ∨ ∃ set1, traverseLoop l.version l.nodes l.leaves_v0 l.leaves l.leafbrushes fuel curr s set
          = .ok set1 ∧ ∀ b ∈ set1, b ∈ l.leafbrushes := by
  induction fuel generalizing curr s set with
  | zero => left; rfl
  | succ fuel ih =>
    unfold traverseLoop
    by_cases hcond : 0 ≤ curr ∨ s ≠ []
    · simp only [hcond, if_true]
      rcases descend_in_bounds l hl (fuel + 1) curr s hc hs with h | ⟨c1, s1, h1, h2, h3, h4⟩
      · left; simp only [h]
      · simp only [h1]
        obtain ⟨leaf, hleaf⟩ := Option.isSome_iff_exists.1 h2
        simp only [hleaf]
        obtain ⟨set1, hins, hset1⟩ := insertLeafBrushes_in_bounds l.leafbrushes
          leaf.numleafbrushes leaf.firstleafbrush set
          (hl.leafRange leaf (leafAt_mem l _ _ hleaf))
        simp only [hins]
        cases s1 with
        | nil => exact absurd rfl (h4 hcond)
        | cons top s2 =>
          have htop : top < l.nodes.length := h3 top (List.mem_cons_self _ _)
          simp only [List.getElem?_eq_getElem htop]
          exact ih _ _ _ (hl.children _ (List.getElem_mem htop)).2
            (fun x hx => h3 x (List.mem_cons_of_mem _ hx))
            (fun b hb => (hset1 b hb).elim (hset b) id)
    · right
      simp only [hcond, if_false]
      exact ⟨set, rfl, hset⟩

theorem descend_ne_emptyStack (nodes : List dnode_t) (fuel : Nat) (curr : Int) (s : List Nat) :
    descend nodes fuel curr s ≠ .error .emptyStack := by
  induction fuel generalizing curr s with
  | zero => simp [descend]
  | succ fuel ih =>
    unfold descend
    split_ifs
    · split
      · simp
      · exact ih _ _
    · simp

theorem descend_stack_nonempty (nodes : List dnode_t) (fuel : Nat) (curr : Int) (s : List Nat)
    (c1 : Int) (s1 : List Nat) (h : descend nodes fuel curr s = .ok (c1, s1))
    (hcond : 0 ≤ curr ∨ s ≠ []) : s1 ≠ [] := by
  induction fuel generalizing curr s with
  | zero => simp [descend] at h
  | succ fuel ih =>
    unfold descend at h
    split_ifs at h with h0
    · split at h
      · simp at h
      · exact ih _ _ h (Or.inr (List.cons_ne_nil _ _))
    · simp only [Except.ok.injEq, Prod.mk.injEq] at h
      rw [← h.2]
      simpa [h0] using hcond

theorem insertLeafBrushes_ne_emptyStack (lb : List Nat) (k idx : Nat) (set : List Nat) :
    insertLeafBrushes lb k idx set ≠ .error .emptyStack := by
  induction k generalizing idx set with
  | zero => simp [insertLeafBrushes]
  | succ k ih =>
    unfold insertLeafBrushes
    split
    · simp
    · exact ih _ _

theorem traverseLoop_ne_emptyStack (version : Int) (nodes : List dnode_t)
    (leaves_v0 leaves : List dleaf_t) (leafbrushes : List Nat) (fuel : Nat) (curr : Int)
    (s set : List Nat) :
    traverseLoop version nodes leaves_v0 leaves leafbrushes fuel curr s set
      ≠ .error .emptyStack := by
  induction fuel generalizing curr s set with
  | zero => simp [traverseLoop]
  | succ fuel ih =>
    unfold traverseLoop
    by_cases hcond : 0 ≤ curr ∨ s ≠ []
    · simp only [hcond, if_true]
      cases hd : descend nodes (fuel + 1) curr s with
      | error e =>
        intro h
        simp only [Except.error.injEq] at h
        exact descend_ne_emptyStack nodes (fuel + 1) curr s (by rw [hd, h])
      | ok r =>
        obtain ⟨c1, s1⟩ := r
        simp only
        cases hleaf : leafAt version leaves_v0 leaves (-1 - c1) with
        | none => simp
        | some leaf =>
          simp only
          cases hins : insertLeafBrushes leafbrushes leaf.numleafbrushes leaf.firstleafbrush set with
          | error e =>
            intro h
            simp only [Except.error.injEq] at h
            exact insertLeafBrushes_ne_emptyStack _ _ _ _ (by rw [hins, h])
          | ok set1 =>
            simp only
            cases s1 with
            | nil => exact absurd rfl (descend_stack_nonempty _ _ _ _ _ _ hd hcond)
            | cons top s2 =>
              simp only
              cases nodes[top]? with
              | none => simp
              | some n => exact ih _ _ _
    · simp [hcond]

/-! ### The callback on one brush -/

theorem halfSpacesOf_cons_bevel {F : Type} (planes : List (dplane_t F)) (side : dbrushside_t)
    (rest : List dbrushside_t) (h : side.bevel ≠ 0) :
    halfSpacesOf planes (side :: rest) = halfSpacesOf planes rest := by
  simp [halfSpacesOf, List.filter_cons, h]

theorem halfSpacesOf_cons_plane {F : Type} (planes : List (dplane_t F)) (side : dbrushside_t)
    (rest : List dbrushside_t) (plane : dplane_t F) (h : side.bevel = 0)
    (hp : planes[side.planenum]? = some plane) :
    halfSpacesOf planes (side :: rest)
      = ⟨plane.normal, plane.dist⟩ :: halfSpacesOf planes rest := by
  simp [halfSpacesOf, List.filter_cons, h, hp]

theorem sidesLoop_spec {F : Type} (brushsides : List dbrushside_t) (planes : List (dplane_t F))
    (firstside : Int) (k i : Nat) (isBox : Bool) (vplanes : List (VPlane F))
    (h : ∀ j, j < k →
      sideInBounds planes (getInt? brushsides (firstside + ((i + j : Nat) : Int))) = true) :
    ∃ isBox1,
      sidesLoop brushsides planes firstside k i isBox vplanes
          = .ok (isBox1, vplanes ++ halfSpacesOf planes
              ((List.range' i k).filterMap (fun (j : Nat) => getInt? brushsides (firstside + (j : Int)))))
        ∧ (isBox1 = true ↔ isBox = true ∧ NonBevelAxial planes
              ((List.range' i k).filterMap
                (fun (j : Nat) => getInt? brushsides (firstside + (j : Int))))) := by
  induction k generalizing i isBox vplanes with
  | zero =>
    refine ⟨isBox, ?_, ?_⟩
    · simp [sidesLoop, halfSpacesOf]
    · simp [NonBevelAxial]
  | succ k ih =>
    have h0 := h 0 (Nat.succ_pos k)
    rw [Nat.add_zero] at h0
    have hrest : ∀ j, j < k → sideInBounds planes
        (getInt? brushsides (firstside + ((i + 1 + j : Nat) : Int))) = true := by
      intro j hj
      have := h (j + 1) (Nat.succ_lt_succ hj)
      rwa [show i + (j + 1) = i + 1 + j by omega] at this
    cases hside : getInt? brushsides (firstside + (i : Int)) with
    | none => rw [hside] at h0; simp [sideInBounds] at h0
    | some side =>
      rw [hside] at h0
      have hlist : (List.range' i (k + 1)).filterMap
            (fun (j : Nat) => getInt? brushsides (firstside + (j : Int)))
          = side :: (List.range' (i + 1) k).filterMap
              (fun (j : Nat) => getInt? brushsides (firstside + (j : Int))) := by
        rw [List.range'_succ, List.filterMap_cons, hside]
      rw [hlist]
      by_cases hb : side.bevel = 0
      · have hlt : side.planenum < planes.length := by
          simpa [sideInBounds, hb] using h0
        have hp : planes[side.planenum]? = some planes[side.planenum] :=
          List.getElem?_eq_getElem hlt
        obtain ⟨isBox1, h1, h2⟩ := ih (i + 1)
          (if isBox && decide (planes[side.planenum].type > 2) then false else isBox)
          (vplanes ++ [⟨planes[side.planenum].normal, planes[side.planenum].dist⟩]) hrest
        refine ⟨isBox1, ?_, ?_⟩
        · simp only [sidesLoop, hside, hb, ne_eq, not_true_eq_false, if_false, hp, h1,
            halfSpacesOf_cons_plane planes side _ _ hb hp, List.append_assoc,
            List.singleton_append]
        · rw [h2]
          constructor
          · rintro ⟨ha, hr⟩
            have hbox : isBox = true := by
              by_contra hne
              simp [hne] at ha
            have hty : planes[side.planenum].type ≤ 2 := by
              by_contra hgt
              have : planes[side.planenum].type > 2 := lt_of_not_ge hgt
              simp [hbox, this] at ha
            refine ⟨hbox, ?_⟩
            intro s hs hs0 q hq
            rcases List.mem_cons.1 hs with he | he
            · subst he
              rw [hp] at hq
              cases hq
              exact hty
            · exact hr s he hs0 q hq
          · rintro ⟨hbox, hr⟩
            have hty : planes[side.planenum].type ≤ 2 :=
              hr side (List.mem_cons_self _ _) hb _ hp
            refine ⟨?_, fun s hs => hr s (List.mem_cons_of_mem _ hs)⟩
            simp [hbox, not_lt.mpr hty]
      · obtain ⟨isBox1, h1, h2⟩ := ih (i + 1) isBox vplanes hrest
        refine ⟨isBox1, ?_, ?_⟩
        · simp only [sidesLoop, hside, hb, ne_eq, not_false_eq_true, if_true, h1,
            halfSpacesOf_cons_bevel planes side _ hb]
        · rw [h2]
          constructor
          · rintro ⟨hbox, hr⟩
            refine ⟨hbox, ?_⟩
            intro s hs hs0 q hq
            rcases List.mem_cons.1 hs with he | he
            · subst he; exact absurd hs0 hb
            · exact hr s he hs0 q hq
          · rintro ⟨hbox, hr⟩
            exact ⟨hbox, fun s hs => hr s (List.mem_cons_of_mem _ hs)⟩

theorem brushCallback_solid {F P : Type} (genPoly : List (VPlane F) → Option P)
    (addPoly : P → ShapeColor → Bool) (brushes : List dbrush_t)
    (brushsides : List dbrushside_t) (planes : List (dplane_t F)) (ztest : Bool)
    (vplanes : List (VPlane F)) (brushIndex : Nat) (brush : dbrush_t)
    (hbrush : brushes[brushIndex]? = some brush)
    (hsolid : contentsSolidBits brush.contents ≠ 0)
    (hsides : SidesInBounds brushsides planes brush) :
    ∃ isBox1,
      (isBox1 = true ↔ brush.numsides = 6
          ∧ NonBevelAxial planes (brushSideList brushsides brush))
        ∧ brushCallback genPoly addPoly brushes brushsides planes ztest vplanes brushIndex
          = match genPoly (halfSpacesOf planes (brushSideList brushsides brush)) with
            | none =>
              .ok ⟨true, some (halfSpacesOf planes (brushSideList brushsides brush)), none,
                halfSpacesOf planes (brushSideList brushsides brush)⟩
            | some poly =>
              .ok ⟨addPoly poly (brushColor isBox1 ztest),
                some (halfSpacesOf planes (brushSideList brushsides brush)),
                some (poly, brushColor isBox1 ztest),
                halfSpacesOf planes (brushSideList brushsides brush)⟩ := by
  obtain ⟨isBox1, h1, h2⟩ := sidesLoop_spec brushsides planes brush.firstside
    brush.numsides.toNat 0 (decide (brush.numsides = 6)) []
    (fun j hj => by simpa using hsides j hj)
  refine ⟨isBox1, ?_, ?_⟩
  · rw [h2]; simp [brushSideList]
  · unfold brushCallback
    simp only [hbrush, hsolid, if_false, h1, List.nil_append]
    unfold brushSideList brushColor
    cases genPoly (halfSpacesOf planes ((List.range' 0 brush.numsides.toNat).filterMap
        (fun (j : Nat) => getInt? brushsides (brush.firstside + (j : Int))))) <;> rfl

theorem sidesLoop_ok_in_bounds {F : Type} (brushsides : List dbrushside_t)
    (planes : List (dplane_t F)) (firstside : Int) (k i : Nat) (isBox : Bool)
    (vplanes : List (VPlane F)) (r : Bool × List (VPlane F))
    (h : sidesLoop brushsides planes firstside k i isBox vplanes = .ok r) :
    ∀ j, j < k →
      sideInBounds planes (getInt? brushsides (firstside + ((i + j : Nat) : Int))) = true := by
  induction k generalizing i isBox vplanes with
  | zero => intro j hj; omega
  | succ k ih =>
    unfold sidesLoop at h
    cases hside : getInt? brushsides (firstside + (i : Int)) with
    | none => simp [hside] at h
    | some side =>
      simp only [hside] at h
      have hstep : sideInBounds planes (some side) = true
          ∧ ∃ b v, sidesLoop brushsides planes firstside k (i + 1) b v = .ok r := by
        by_cases hb : side.bevel = 0
        · simp only [hb, ne_eq, not_true_eq_false, if_false] at h
          cases hp : planes[side.planenum]? with
          | none => simp [hp] at h
          | some plane =>
            simp only [hp] at h
            refine ⟨?_, _, _, h⟩
            have := (List.getElem?_eq_some.1 hp).1
            simp [sideInBounds, this]
        · simp only [hb, ne_eq, not_false_eq_true, if_true] at h
          exact ⟨by simp [sideInBounds, hb], _, _, h⟩
      obtain ⟨h0, b, v, hrec⟩ := hstep
      intro j hj
      cases j with
      | zero => simpa [hside] using h0
      | succ j =>
        have := ih (i + 1) b v hrec j (Nat.lt_of_succ_lt_succ hj)
        rwa [show i + 1 + j = i + (j + 1) by omega] at this

theorem brushCallback_ok_in_bounds {F P : Type} (genPoly : List (VPlane F) → Option P)
    (addPoly : P → ShapeColor → Bool) (brushes : List dbrush_t)
    (brushsides : List dbrushside_t) (planes : List (dplane_t F)) (ztest : Bool)
    (vplanes : List (VPlane F)) (brushIndex : Nat) (brush : dbrush_t)
    (hbrush : brushes[brushIndex]? = some brush)
    (hsolid : contentsSolidBits brush.contents ≠ 0) (call : BrushCall F P)
    (hcall : brushCallback genPoly addPoly brushes brushsides planes ztest vplanes brushIndex
      = .ok call) :
    SidesInBounds brushsides planes brush := by
  unfold brushCallback at hcall
  simp only [hbrush, hsolid, if_false] at hcall
  cases hloop : sidesLoop brushsides planes brush.firstside brush.numsides.toNat 0
      (decide (brush.numsides = 6)) [] with
  | error e => simp [hloop] at hcall
  | ok r =>
    intro j hj
    simpa using sidesLoop_ok_in_bounds _ _ _ _ _ _ _ r hloop j hj

theorem length_filterMap_of_isSome {α β : Type} (f : α → Option β) (l : List α)
    (h : ∀ x ∈ l, (f x).isSome = true) : (l.filterMap f).length = l.length := by
  induction l with
  | nil => rfl
  | cons a l ih =>
    obtain ⟨b, hb⟩ := Option.isSome_iff_exists.1 (h a (List.mem_cons_self _ _))
    rw [List.filterMap_cons, hb]
    simp [ih (fun x hx => h x (List.mem_cons_of_mem _ hx))]

theorem brushSideList_length {F : Type} (brushsides : List dbrushside_t)
    (planes : List (dplane_t F)) (brush : dbrush_t)
    (hsides : SidesInBounds brushsides planes brush) :
    (brushSideList brushsides brush).length = brush.numsides.toNat := by
  unfold brushSideList
  rw [length_filterMap_of_isSome, List.length_range']
  intro i hi
  have hlt : i < brush.numsides.toNat := by simpa [List.mem_range'_1] using hi
  have := hsides i hlt
  cases hside : getInt? brushsides (brush.firstside + (i : Int)) with
  | none => simp [hside, sideInBounds] at this
  | some side => rfl

theorem halfSpacesOf_length {F : Type} (brushsides : List dbrushside_t)
    (planes : List (dplane_t F)) (brush : dbrush_t)
    (hsides : SidesInBounds brushsides planes brush) :
    (halfSpacesOf planes (brushSideList brushsides brush)).length
      = ((brushSideList brushsides brush).filter (fun s => decide (s.bevel = 0))).length := by
  unfold halfSpacesOf
  apply length_filterMap_of_isSome
  intro s hs
  obtain ⟨hmem, hbevel⟩ := List.mem_filter.1 hs
  obtain ⟨i, hi, hside⟩ := List.mem_filterMap.1 hmem
  have hlt : i < brush.numsides.toNat := by simpa [List.mem_range'_1] using hi
  have := hsides i hlt
  rw [hside] at this
  have hb : s.bevel = 0 := by simpa using hbevel
  have hp : s.planenum < planes.length := by simpa [sideInBounds, hb] using this
  simp [List.getElem?_eq_getElem hp]

theorem brushCallback_in_bounds {F P : Type} (l : Lumps F) (hl : InBounds l) (b : Nat)
    (hb : b ∈ l.leafbrushes) (genPoly : List (VPlane F) → Option P)
    (addPoly : P → ShapeColor → Bool) (ztest : Bool) (vplanes : List (VPlane F)) :
    ∃ call, brushCallback genPoly addPoly l.brushes l.brushsides l.planes ztest vplanes b
      = .ok call := by
  have hlt : b < l.brushes.length := hl.leafbrushes b hb
  have hbrush : l.brushes[b]? = some l.brushes[b] := List.getElem?_eq_getElem hlt
  by_cases hsolid : contentsSolidBits l.brushes[b].contents = 0
  · exact ⟨⟨true, none, none, vplanes⟩, by simp only [brushCallback, hbrush, hsolid, if_true]⟩
  · obtain ⟨isBox1, _, h2⟩ := brushCallback_solid genPoly addPoly l.brushes l.brushsides
      l.planes ztest vplanes b _ hbrush hsolid (hl.sides _ (List.getElem_mem hlt) hsolid)
    rw [h2]
    cases genPoly (halfSpacesOf l.planes (brushSideList l.brushsides l.brushes[b])) with
    | none => exact ⟨_, rfl⟩
    | some poly => exact ⟨_, rfl⟩

set_option maxRecDepth 100000 in
/-- C5, counterexample: the file `emptyLumpsFile` has a complete, valid header and seven
empty lumps, all of which are read; the node array is then empty, the traversal reads
`nodes[0]` outside it, and the load ends in that fault. -/
theorem empty_node_lump_read_out_of_bounds :
    (readLumps (sdkFormat (fun n => (n : Int))) false emptyLumpsFile).toOption.map
        (fun l => (l.nodes, l.traverse 1)) = some ([], .error .outOfBounds)
      ∧ (loadedState.LoadMapFile (sampleEnv (oneFile "empty" emptyLumpsFile) "here" []) 1
          "empty" true).1 = .fault .outOfBounds := by
  refine ⟨by decide!, by decide!⟩

/-- C5, amended: the traversal never pops an empty stack, whatever the lumps hold and
however long it runs. When the indices stored in the lumps are in bounds (`InBounds`),
the traversal never indexes `nodes`, the leaf array or `leafbrushes` outside their
bounds, however long it runs, and for every brush index of the set it returns the
callback reads `brushes`, `brushsides` and `planes` inside their bounds and returns. -/
theorem traversal_and_callback_in_bounds {F P : Type} (l : Lumps F) (fuel : Nat) :
    l.traverse fuel ≠ .error .emptyStack
      ∧ (InBounds l →
          l.traverse fuel ≠ .error .outOfBounds
            ∧ ∀ set, l.traverse fuel = .ok set → ∀ b ∈ set,
                ∀ (genPoly : List (VPlane F) → Option P) (addPoly : P → ShapeColor → Bool)
                  (ztest : Bool) (vplanes : List (VPlane F)),
                  ∃ call, brushCallback genPoly addPoly l.brushes l.brushsides l.planes ztest
                    vplanes b = .ok call) := by
  refine ⟨traverseLoop_ne_emptyStack _ _ _ _ _ _ _ _ _, fun hl => ?_⟩
  have hroot : RefInBounds l 0 := by
    unfold RefInBounds
    simpa using hl.root
  rcases traverseLoop_in_bounds l hl fuel 0 [] [] hroot (by simp) (by simp) with
    h | ⟨set1, h1, h2⟩
  · unfold Lumps.traverse traverse
    rw [h]
    exact ⟨by simp, fun set hset => by simp at hset⟩
  · unfold Lumps.traverse traverse
    rw [h1]
    refine ⟨by simp, fun set hset b hb genPoly addPoly ztest vplanes => ?_⟩
    simp only [Except.ok.injEq] at hset
    subst hset
    exact brushCallback_in_bounds l hl b (h2 b hb) genPoly addPoly ztest vplanes

/-- Witness of C5: the arrays `sampleLumps` are in bounds; the traversal with fuel 5
returns the set `[0]` without a fault and the callback returns on the brushes it
found. -/
theorem traversal_and_callback_in_bounds_witness :
    sampleLumps.traverse 5 = .ok [0]
      ∧ sampleLumps.traverse 5 ≠ .error .outOfBounds
      ∧ ∀ set, sampleLumps.traverse 5 = .ok set → ∀ b ∈ set,
          ∀ (genPoly : List (VPlane Int) → Option Nat) (addPoly : Nat → ShapeColor → Bool)
            (ztest : Bool) (vplanes : List (VPlane Int)),
            ∃ call, brushCallback genPoly addPoly sampleLumps.brushes sampleLumps.brushsides
              sampleLumps.planes ztest vplanes b = .ok call :=
  ⟨by decide, (traversal_and_callback_in_bounds sampleLumps 5).2
    ⟨by decide, by decide, by decide, by decide, by decide⟩⟩

/-- C6, counterexample: a solid brush of six sides, none a bevel, whose plane has the
type -1. The callback produces a polyhedron and tags it with the box colour, although
the type of the plane is not in 0..2. -/
theorem negative_plane_type_tagged_box :
    (brushCallback countPlanes (fun _ _ => true) sixSideBrushes sixSides negativeTypePlanes
        true [] 0).toOption.map (fun call => call.added)
        = some (some (6, SC_BOX_BRUSH))
      ∧ sixSideBrushes[0]? = some ⟨0, 6, 1⟩
      ∧ brushSideList sixSides ⟨0, 6, 1⟩ = List.replicate 6 ⟨0, 0, 0, 0⟩
      ∧ negativeTypePlanes[0]? = some ⟨⟨1, 0, 0⟩, 0, -1⟩
      ∧ ¬ ((0 : Int) ≤ -1 ∧ (-1 : Int) ≤ 2) := by
  refine ⟨by decide, by decide, by decide, by decide, by decide⟩

/-- C6, amended: for a solid brush for which the callback produced a polyhedron and
handed it to `AddCPolyhedron` with a colour, the colour is the box colour if and only
if the raw `numsides` is 6 and every side of the brush that is not a bevel names a
plane whose type is at most 2 (the test of the source is `plane.type > 2`, so a
negative type counts as axis-aligned); otherwise it is the complex colour. Bevel sides
enter only through `numsides`. -/
theorem box_tag_iff {F P : Type} (genPoly : List (VPlane F) → Option P)
    (addPoly : P → ShapeColor → Bool) (brushes : List dbrush_t)
    (brushsides : List dbrushside_t) (planes : List (dplane_t F)) (ztest : Bool)
    (vplanes : List (VPlane F)) (brushIndex : Nat) (brush : dbrush_t)
    (call : BrushCall F P) (poly : P) (color : ShapeColor)
    (hbrush : brushes[brushIndex]? = some brush)
    (hsolid : contentsSolidBits brush.contents ≠ 0)
    (hcall : brushCallback genPoly addPoly brushes brushsides planes ztest vplanes brushIndex
      = .ok call)
    (hadded : call.added = some (poly, color)) :
    (color.outline = SC_BOX_BRUSH.outline ↔
        brush.numsides = 6 ∧ NonBevelAxial planes (brushSideList brushsides brush))
      ∧ (color.outline ≠ SC_BOX_BRUSH.outline → color.outline = SC_COMPLEX_BRUSH.outline) := by
  have hsides := brushCallback_ok_in_bounds genPoly addPoly brushes brushsides planes ztest
    vplanes brushIndex brush hbrush hsolid call hcall
  obtain ⟨isBox1, h1, h2⟩ := brushCallback_solid genPoly addPoly brushes brushsides planes
    ztest vplanes brushIndex brush hbrush hsolid hsides
  rw [hcall] at h2
  cases hg : genPoly (halfSpacesOf planes (brushSideList brushsides brush)) with
  | none =>
    simp only [hg, Except.ok.injEq] at h2
    rw [h2] at hadded
    simp at hadded
  | some poly1 =>
    simp only [hg, Except.ok.injEq] at h2
    rw [h2] at hadded
    simp only [Option.some.injEq, Prod.mk.injEq] at hadded
    rw [← hadded.2, ← h1]
    cases isBox1 <;> simp [brushColor, SC_BOX_BRUSH, SC_COMPLEX_BRUSH]

/-- Witness of C6: brush 0 of `sampleLumps`, a solid brush of two sides. -/
theorem box_tag_iff_witness :
    (SC_COMPLEX_BRUSH.outline = SC_BOX_BRUSH.outline ↔
        (2 : Int) = 6 ∧ NonBevelAxial sampleLumps.planes
          (brushSideList sampleLumps.brushsides ⟨0, 2, 1⟩))
      ∧ (SC_COMPLEX_BRUSH.outline ≠ SC_BOX_BRUSH.outline
          → SC_COMPLEX_BRUSH.outline = SC_COMPLEX_BRUSH.outline) :=
  box_tag_iff countPlanes (fun _ _ => true) sampleLumps.brushes sampleLumps.brushsides
    sampleLumps.planes true [] 0 ⟨0, 2, 1⟩
    ⟨true, some [⟨⟨1, 0, 0⟩, 4⟩], some (1, SC_COMPLEX_BRUSH), [⟨⟨1, 0, 0⟩, 4⟩]⟩ 1
    SC_COMPLEX_BRUSH (by decide) (by decide) (by decide) rfl

/-- C7: for every solid brush, whenever the callback returns, the list it handed to the
polyhedron routine is the list of `(plane.normal, plane.dist)` of the brush's sides
`firstside .. firstside + numsides - 1` whose bevel flag is zero, in side order: every
side index contributes its side, every side that is not a bevel contributes one pair,
and what the function-static vector held before the call does not appear. The callback
does return when the sides and planes of the brush are in bounds. -/
theorem polyhedron_planes_are_non_bevel_sides {F P : Type}
    (genPoly : List (VPlane F) → Option P) (addPoly : P → ShapeColor → Bool)
    (brushes : List dbrush_t) (brushsides : List dbrushside_t) (planes : List (dplane_t F))
    (ztest : Bool) (vplanes : List (VPlane F)) (brushIndex : Nat) (brush : dbrush_t)
    (hbrush : brushes[brushIndex]? = some brush)
    (hsolid : contentsSolidBits brush.contents ≠ 0) :
    (SidesInBounds brushsides planes brush →
        ∃ call, brushCallback genPoly addPoly brushes brushsides planes ztest vplanes
          brushIndex = .ok call)
      ∧ ∀ call, brushCallback genPoly addPoly brushes brushsides planes ztest vplanes
          brushIndex = .ok call →
        call.polyhedronArgs = some (halfSpacesOf planes (brushSideList brushsides brush))
          ∧ (brushSideList brushsides brush).length = brush.numsides.toNat
          ∧ (halfSpacesOf planes (brushSideList brushsides brush)).length
              = ((brushSideList brushsides brush).filter
                  (fun s => decide (s.bevel = 0))).length := by
  have key : ∀ hsides : SidesInBounds brushsides planes brush,
      ∃ call, brushCallback genPoly addPoly brushes brushsides planes ztest vplanes
          brushIndex = .ok call
        ∧ call.polyhedronArgs
          = some (halfSpacesOf planes (brushSideList brushsides brush)) := by
    intro hsides
    obtain ⟨isBox1, _, h2⟩ := brushCallback_solid genPoly addPoly brushes brushsides planes
      ztest vplanes brushIndex brush hbrush hsolid hsides
    rw [h2]
    cases genPoly (halfSpacesOf planes (brushSideList brushsides brush)) with
    | none => exact ⟨_, rfl, rfl⟩
    | some poly => exact ⟨_, rfl, rfl⟩
  refine ⟨fun hsides => ?_, fun call hcall => ?_⟩
  · obtain ⟨call, h, _⟩ := key hsides
    exact ⟨call, h⟩
  · have hsides := brushCallback_ok_in_bounds genPoly addPoly brushes brushsides planes ztest
      vplanes brushIndex brush hbrush hsolid call hcall
    obtain ⟨call1, h1, h2⟩ := key hsides
    rw [hcall] at h1
    simp only [Except.ok.injEq] at h1
    rw [h1]
    exact ⟨h2, brushSideList_length brushsides planes brush hsides,
      halfSpacesOf_length brushsides planes brush hsides⟩

/-- Witness of C7: brush 0 of `sampleLumps` has the sides 0 and 1, side 1 a bevel; with
a stale plane left in the static vector, the routine is handed the plane of side 0
alone. -/
theorem polyhedron_planes_are_non_bevel_sides_witness :
    ∃ call, brushCallback countPlanes (fun _ _ => true) sampleLumps.brushes
        sampleLumps.brushsides sampleLumps.planes true [⟨⟨9, 9, 9⟩, 9⟩] 0 = .ok call
      ∧ call.polyhedronArgs = some [⟨⟨1, 0, 0⟩, 4⟩] :=
  ⟨⟨true, some [⟨⟨1, 0, 0⟩, 4⟩], some (1, SC_COMPLEX_BRUSH), [⟨⟨1, 0, 0⟩, 4⟩]⟩, by decide,
    ((polyhedron_planes_are_non_bevel_sides countPlanes (fun _ _ => true) sampleLumps.brushes
      sampleLumps.brushsides sampleLumps.planes true [⟨⟨9, 9, 9⟩, 9⟩] 0 ⟨0, 2, 1⟩
      (by decide) (by decide)).2
      ⟨true, some [⟨⟨1, 0, 0⟩, 4⟩], some (1, SC_COMPLEX_BRUSH), [⟨⟨1, 0, 0⟩, 4⟩]⟩
      (by decide)).1⟩

/-- C8: for a brush whose `contents` lacks the `CONTENTS_SOLID` bit, whatever its sides
and planes are, the callback returns `true` without calling the polyhedron routine and
without adding geometry, and leaves the function-static vector as it was. -/
theorem non_solid_brush_skipped {F P : Type} (genPoly : List (VPlane F) → Option P)
    (addPoly : P → ShapeColor → Bool) (brushes : List dbrush_t)
    (brushsides : List dbrushside_t) (planes : List (dplane_t F)) (ztest : Bool)
    (vplanes : List (VPlane F)) (brushIndex : Nat) (brush : dbrush_t)
    (hbrush : brushes[brushIndex]? = some brush)
    (hcontents : contentsSolidBits brush.contents = 0) :
    brushCallback genPoly addPoly brushes brushsides planes ztest vplanes brushIndex
      = .ok ⟨true, none, none, vplanes⟩ := by
  simp only [brushCallback, hbrush, hcontents, if_true]

/-- Witness of C8: brush 1 of `sampleLumps` has `contents = 0` and declares six sides
that `brushsides` does not have. -/
theorem non_solid_brush_skipped_witness :
    brushCallback countPlanes (fun _ _ => true) sampleLumps.brushes sampleLumps.brushsides
      sampleLumps.planes true [] 1 = .ok ⟨true, none, none, []⟩ :=
  non_solid_brush_skipped countPlanes (fun _ _ => true) sampleLumps.brushes
    sampleLumps.brushsides sampleLumps.planes true [] 1 ⟨0, 6, 0⟩ (by decide) (by decide)

/-! ### The landmark offset -/

theorem LandmarkDelta_shared {F : Type} [Zero F] [Sub F] (fromList toList : SptLandmarkList F)
    (h : ∃ n p q, (n, p) ∈ fromList ∧ (n, q) ∈ toList) :
    ∃ n p q, (n, p) ∈ fromList ∧ (n, q) ∈ toList ∧ LandmarkDelta fromList toList = p - q := by
  induction fromList with
  | nil =>
    obtain ⟨n, p, q, hp, _⟩ := h
    simp at hp
  | cons e rest ih =>
    obtain ⟨name, pos⟩ := e
    unfold LandmarkDelta
    cases hfind : toList.find? (fun e => decide (e.1 = name)) with
    | some e =>
      have hmem : e ∈ toList := List.mem_of_find?_eq_some hfind
      have hname : e.1 = name := by simpa using List.find?_some hfind
      refine ⟨name, pos, e.2, List.mem_cons_self _ _, ?_, rfl⟩
      rw [← hname]
      exact hmem
    | none =>
      have hnone : ∀ x ∈ toList, ¬ x.1 = name := by
        simpa using List.find?_eq_none.1 hfind
      obtain ⟨n, p, q, hp, hq⟩ := h
      have hrest : (n, p) ∈ rest := by
        rcases List.mem_cons.1 hp with he | he
        · exfalso
          have hn : n = name := (Prod.mk.inj he).1
          exact hnone (n, q) hq hn
        · exact he
      obtain ⟨n1, p1, q1, h1, h2, h3⟩ := ih ⟨n, p, q, hrest, hq⟩
      exact ⟨n1, p1, q1, List.mem_cons_of_mem _ h1, h2, h3⟩

theorem LandmarkDelta_no_shared {F : Type} [Zero F] [Sub F]
    (fromList toList : SptLandmarkList F)
    (h : ∀ n p q, (n, p) ∈ fromList → (n, q) ∉ toList) :
    LandmarkDelta fromList toList = vec3_origin := by
  induction fromList with
  | nil => rfl
  | cons e rest ih =>
    obtain ⟨name, pos⟩ := e
    unfold LandmarkDelta
    cases hfind : toList.find? (fun e => decide (e.1 = name)) with
    | some e =>
      exfalso
      have hmem : e ∈ toList := List.mem_of_find?_eq_some hfind
      have hname : e.1 = name := by simpa using List.find?_some hfind
      apply h name pos e.2 (List.mem_cons_self _ _)
      rw [← hname]
      exact hmem
    | none => exact ih (fun n p q hp => h n p q (List.mem_cons_of_mem _ hp))

/-- C9: with a file loaded and a map loaded, on a call that computes the offset (the
cache key differs from the map name or is empty) and does not take the zero-offset
shortcut, the vector returned is, when some landmark name occurs in both lists, the
loaded map's position for a shared name minus the file's position for that name, and
the zero vector when the lists share no name. -/
theorem offset_is_landmark_difference {F P : Type} [Zero F] [Sub F] [DecidableEq F]
    (env : Env F P) (self : MapOverlay F P)
    (hfile : self.lastLoadedFile ≠ "") (hmap : env.GetLoadedMap ≠ "")
    (hcompute : self.landmarkOffsetCachedFrom ≠ env.GetLoadedMap
      ∨ self.landmarkOffsetCachedFrom = "")
    (hshortcut : ¬ (strstrFound self.lastLoadedFile env.GetLoadedMap = true
      ∧ env.GetLandmarksInLoadedMap = self.bspLandmarks)) :
    ((∃ n p q, (n, p) ∈ env.GetLandmarksInLoadedMap ∧ (n, q) ∈ self.bspLandmarks) →
        ∃ n p q, (n, p) ∈ env.GetLandmarksInLoadedMap ∧ (n, q) ∈ self.bspLandmarks
          ∧ (self.GetLandmarkOffsetToLastLoadedMap env).1 = p - q)
      ∧ ((∀ n p q, (n, p) ∈ env.GetLandmarksInLoadedMap → (n, q) ∉ self.bspLandmarks) →
          (self.GetLandmarkOffsetToLastLoadedMap env).1 = vec3_origin) := by
  have hres : (self.GetLandmarkOffsetToLastLoadedMap env).1
      = LandmarkDelta env.GetLandmarksInLoadedMap self.bspLandmarks := by
    unfold MapOverlay.GetLandmarkOffsetToLastLoadedMap
    simp only [hfile, hmap, or_self, if_false, hcompute, if_true, hshortcut]
  rw [hres]
  exact ⟨LandmarkDelta_shared _ _, LandmarkDelta_no_shared _ _⟩

/-- Witness of C9: the file's landmarks are `[("start", (0,0,0))]`, the loaded map's
are `[("start", (10,0,0))]`; the offset is `(10,0,0)`. -/
theorem offset_is_landmark_difference_witness :
    (startState.GetLandmarkOffsetToLastLoadedMap
        (sampleEnv (fun _ => none) "here" [("start", ⟨10, 0, 0⟩)])).1 = ⟨10, 0, 0⟩
      ∧ ∃ n p q, (n, p) ∈ [("start", (⟨10, 0, 0⟩ : Vector Int))]
          ∧ (n, q) ∈ startState.bspLandmarks
          ∧ (startState.GetLandmarkOffsetToLastLoadedMap
              (sampleEnv (fun _ => none) "here" [("start", ⟨10, 0, 0⟩)])).1 = p - q :=
  ⟨by decide,
    (offset_is_landmark_difference (sampleEnv (fun _ => none) "here" [("start", ⟨10, 0, 0⟩)])
      startState (by decide) (by decide) (by decide) (by decide)).1
      ⟨"start", ⟨10, 0, 0⟩, ⟨0, 0, 0⟩, by decide, by decide⟩⟩

/-- X1: whenever `LoadMapFile` returns failure, whatever the error, the meshes,
`lastLoadedFile`, `createdWithZTestMaterial` and the cached offset are the ones before
the call. -/
theorem LoadMapFile_failure_keeps_meshes {F P : Type} [Zero F] (env : Env F P) (fuel : Nat)
    (self : MapOverlay F P) (filename : String) (ztest : Bool) (e : LoadError)
    (hfail : (self.LoadMapFile env fuel filename ztest).1 = .fail e) :
    (self.LoadMapFile env fuel filename ztest).2.meshes = self.meshes
      ∧ (self.LoadMapFile env fuel filename ztest).2.lastLoadedFile = self.lastLoadedFile
      ∧ (self.LoadMapFile env fuel filename ztest).2.createdWithZTestMaterial
          = self.createdWithZTestMaterial
      ∧ (self.LoadMapFile env fuel filename ztest).2.cachedLandmarkOffset
          = self.cachedLandmarkOffset := by
  unfold MapOverlay.LoadMapFile at hfail ⊢
  split_ifs at hfail ⊢ with h1
  cases hf : env.files filename with
  | none => simp
  | some data =>
    simp only [hf] at hfail ⊢
    cases hr : readLumps env.fmt env.DoesGameLookLikeDMoMM data with
    | error a => simp
    | ok l =>
      simp only [hr] at hfail ⊢
      cases hs : (scanLandmarks env.scanf l.ents).1 with
      | some a => simp
      | none =>
        simp only [hs] at hfail ⊢
        cases ht : traverse l.version l.nodes l.leaves_v0 l.leaves l.leafbrushes fuel with
        | error f => simp [ht] at hfail
        | ok set =>
          simp only [ht] at hfail ⊢
          cases hm : CreateMultipleMeshes
              (brushCallback env.GeneratePolyhedronFromPlanes env.AddCPolyhedron
                l.brushes l.brushsides l.planes ztest) set [] with
          | error f => simp [hm] at hfail
          | ok built => simp [hm] at hfail

set_option maxRecDepth 100000 in
/-- Witness of X1: the load of a version 21 file over a shown map. -/
theorem LoadMapFile_failure_keeps_meshes_witness :
    (loadedState.LoadMapFile (sampleEnv (oneFile "v21" version21File) "here" []) 5 "v21"
        true).2.meshes = loadedState.meshes
      ∧ (loadedState.LoadMapFile (sampleEnv (oneFile "v21" version21File) "here" []) 5 "v21"
          true).2.lastLoadedFile = loadedState.lastLoadedFile
      ∧ (loadedState.LoadMapFile (sampleEnv (oneFile "v21" version21File) "here" []) 5 "v21"
          true).2.createdWithZTestMaterial = loadedState.createdWithZTestMaterial
      ∧ (loadedState.LoadMapFile (sampleEnv (oneFile "v21" version21File) "here" []) 5 "v21"
          true).2.cachedLandmarkOffset = loadedState.cachedLandmarkOffset :=
  LoadMapFile_failure_keeps_meshes (sampleEnv (oneFile "v21" version21File) "here" []) 5
    loadedState "v21" true .unsupportedVersion (by decide!)

/-! ### The offset cache, the no-reload test and `ClearMeshes` -/

/-- C11, the code at a failing input: the file `ab` is shown and the engine reports the
map `a` on both calls, with no load or clear in between. At the first call the engine's
landmark list equals the file's, the zero-offset branch is taken and the call returns
the zero vector without storing the map name as cache key. At the second call the
engine reports `start` at `(10, 0, 0)`; the offset is computed again and the call
returns `(10, 0, 0)`, not the result of the first call. -/
theorem second_query_recomputes_after_shortcut :
    (sameMapState.GetLandmarkOffsetToLastLoadedMap
        (sampleEnv (fun _ => none) "a" [("start", ⟨0, 0, 0⟩)])).1 = ⟨0, 0, 0⟩
      ∧ (sameMapState.GetLandmarkOffsetToLastLoadedMap
          (sampleEnv (fun _ => none) "a" [("start", ⟨0, 0, 0⟩)])).2.landmarkOffsetCachedFrom = ""
      ∧ ((sameMapState.GetLandmarkOffsetToLastLoadedMap
            (sampleEnv (fun _ => none) "a" [("start", ⟨0, 0, 0⟩)])).2.GetLandmarkOffsetToLastLoadedMap
          (sampleEnv (fun _ => none) "a" [("start", ⟨10, 0, 0⟩)])).1 = ⟨10, 0, 0⟩ := by
  refine ⟨by decide, by decide, by decide⟩

/-- X2: with a file loaded and the engine reporting the same non-empty map name on two
calls in a row, the second call returns what the first returned, whatever landmark
list the engine reports at the second call, provided the first call did not go through
the zero-offset branch of line 346. -/
theorem second_query_uses_cache {F P : Type} [Zero F] [Sub F] [DecidableEq F]
    (env1 env2 : Env F P) (self : MapOverlay F P)
    (hfile : self.lastLoadedFile ≠ "") (hmap : env1.GetLoadedMap ≠ "")
    (hsame : env2.GetLoadedMap = env1.GetLoadedMap)
    (hbranch : ¬ ((self.landmarkOffsetCachedFrom ≠ env1.GetLoadedMap
        ∨ self.landmarkOffsetCachedFrom = "")
      ∧ strstrFound self.lastLoadedFile env1.GetLoadedMap = true
      ∧ env1.GetLandmarksInLoadedMap = self.bspLandmarks)) :
    ((self.GetLandmarkOffsetToLastLoadedMap env1).2.GetLandmarkOffsetToLastLoadedMap env2).1
      = (self.GetLandmarkOffsetToLastLoadedMap env1).1 := by
  by_cases hcompute : self.landmarkOffsetCachedFrom ≠ env1.GetLoadedMap
      ∨ self.landmarkOffsetCachedFrom = ""
  · have hshort : ¬ (strstrFound self.lastLoadedFile env1.GetLoadedMap = true
        ∧ env1.GetLandmarksInLoadedMap = self.bspLandmarks) :=
      fun h => hbranch ⟨hcompute, h⟩
    have h1 : self.GetLandmarkOffsetToLastLoadedMap env1
        = (LandmarkDelta env1.GetLandmarksInLoadedMap self.bspLandmarks,
            { self with
              cachedLandmarkOffset := LandmarkDelta env1.GetLandmarksInLoadedMap self.bspLandmarks
              landmarkOffsetCachedFrom := env1.GetLoadedMap }) := by
      unfold MapOverlay.GetLandmarkOffsetToLastLoadedMap
      simp only [hfile, hmap, or_self, if_false, hcompute, if_true, hshort]
    rw [h1]
    unfold MapOverlay.GetLandmarkOffsetToLastLoadedMap
    simp [hfile, hmap, hsame]
  · have hkey : self.landmarkOffsetCachedFrom = env1.GetLoadedMap := by
      by_contra h
      exact hcompute (Or.inl h)
    have hne : self.landmarkOffsetCachedFrom ≠ "" := fun h => hcompute (Or.inr h)
    have h1 : self.GetLandmarkOffsetToLastLoadedMap env1 = (self.cachedLandmarkOffset, self) := by
      unfold MapOverlay.GetLandmarkOffsetToLastLoadedMap
      simp [hfile, hmap, hkey]
    rw [h1]
    unfold MapOverlay.GetLandmarkOffsetToLastLoadedMap
    simp [hfile, hmap, hsame, hkey]

/-- Witness of X2: the file `old` is shown, the engine reports the map `here` with
`start` at `(10, 0, 0)` and then at `(99, 0, 0)`; both calls return `(10, 0, 0)`. -/
theorem second_query_uses_cache_witness :
    (startState.GetLandmarkOffsetToLastLoadedMap
        (sampleEnv (fun _ => none) "here" [("start", ⟨10, 0, 0⟩)])).1 = ⟨10, 0, 0⟩
      ∧ ((startState.GetLandmarkOffsetToLastLoadedMap
            (sampleEnv (fun _ => none) "here" [("start", ⟨10, 0, 0⟩)])).2.GetLandmarkOffsetToLastLoadedMap
          (sampleEnv (fun _ => none) "here" [("start", ⟨99, 0, 0⟩)])).1
        = (startState.GetLandmarkOffsetToLastLoadedMap
            (sampleEnv (fun _ => none) "here" [("start", ⟨10, 0, 0⟩)])).1 :=
  ⟨by decide,
    second_query_uses_cache (sampleEnv (fun _ => none) "here" [("start", ⟨10, 0, 0⟩)])
      (sampleEnv (fun _ => none) "here" [("start", ⟨99, 0, 0⟩)]) startState
      (by decide) (by decide) rfl (by decide)⟩

/-- C12: when the mesh set is not empty, the file name equals `lastLoadedFile` and the
flag equals `createdWithZTestMaterial`, `LoadMapFile` returns success and the object
unchanged whatever the files are (none is opened); when the mesh set is empty, or the
name or the flag differs, the call goes on to open the file, so that it fails with
`Cannot open file.` when the file does not open. -/
theorem LoadMapFile_no_reload {F P : Type} [Zero F] (self : MapOverlay F P)
    (filename : String) (ztest : Bool) :
    (self.meshes ≠ [] ∧ filename = self.lastLoadedFile
        ∧ ztest = self.createdWithZTestMaterial →
        ∀ (env : Env F P) (fuel : Nat), self.LoadMapFile env fuel filename ztest = (.ok, self))
      ∧ (self.meshes = [] ∨ filename ≠ self.lastLoadedFile
          ∨ ztest ≠ self.createdWithZTestMaterial →
          ∀ (env : Env F P) (fuel : Nat), env.files filename = none →
            (self.LoadMapFile env fuel filename ztest).1 = .fail .cannotOpen) := by
  constructor
  · rintro ⟨hm, hf, hz⟩ env fuel
    have h : self.noNeedToReload filename ztest = true := by
      cases hmesh : self.meshes with
      | nil => exact absurd hmesh hm
      | cons a as => simp [MapOverlay.noNeedToReload, hf, hz, hmesh]
    simp [MapOverlay.LoadMapFile, h]
  · intro hcase env fuel hopen
    have h : self.noNeedToReload filename ztest = false := by
      rcases hcase with h | h | h
      · simp [MapOverlay.noNeedToReload, h]
      · simp [MapOverlay.noNeedToReload, h]
      · simp [MapOverlay.noNeedToReload, h]
    simp [MapOverlay.LoadMapFile, h, hopen]

/-- Witness of C12: the object shows the map `old`; the same name and flag are a
no-op even though no file `old` can be opened, and the other flag reads the file. -/
theorem LoadMapFile_no_reload_witness :
    loadedState.LoadMapFile (sampleEnv (fun _ => none) "here" []) 5 "old" true
        = (.ok, loadedState)
      ∧ (loadedState.LoadMapFile (sampleEnv (fun _ => none) "here" []) 5 "old" false).1
        = .fail .cannotOpen :=
  ⟨(LoadMapFile_no_reload loadedState "old" true).1 ⟨by decide, by decide, by decide⟩
      (sampleEnv (fun _ => none) "here" []) 5,
    (LoadMapFile_no_reload loadedState "old" false).2 (Or.inr (Or.inr (by decide)))
      (sampleEnv (fun _ => none) "here" []) 5 rfl⟩

/-- C13: `ClearMeshes` yields an empty mesh set and an empty `lastLoadedFile`, it is
idempotent, and after it no call of `LoadMapFile` passes the no-reload test, whatever
the file name and the flag. -/
theorem ClearMeshes_resets {F P : Type} (self : MapOverlay F P) :
    self.ClearMeshes.meshes = []
      ∧ self.ClearMeshes.lastLoadedFile = ""
      ∧ self.ClearMeshes.ClearMeshes = self.ClearMeshes
      ∧ ∀ (filename : String) (ztest : Bool),
          self.ClearMeshes.noNeedToReload filename ztest = false := by
  refine ⟨rfl, rfl, rfl, fun filename ztest => ?_⟩
  simp [MapOverlay.noNeedToReload, MapOverlay.ClearMeshes]

/-! ### The version test -/

/-- C19: the version test of lines 145-146 passes if and only if the version is 19, or
20, or the game check is true and the arithmetic shift `version >> 16` differs from 20.
The shift is the floor of the division by 65536. With the game check true the
versions 0, 21 and -1 are accepted and the version `20 * 65536 + 7`, whose upper 16
bits are 20, is rejected; without it 21 is rejected. -/
theorem versionSupported_iff (isDMoMM : Bool) (version : Int) :
    (versionSupported isDMoMM version = true ↔
        version = 19 ∨ version = 20 ∨ (isDMoMM = true ∧ version >>> (16 : Nat) ≠ 20))
      ∧ version >>> (16 : Nat) = version / 65536
      ∧ versionSupported true 0 = true
      ∧ versionSupported true 21 = true
      ∧ versionSupported true (-1) = true
      ∧ versionSupported true (20 * 65536 + 7) = false
      ∧ versionSupported false 21 = false := by
  refine ⟨?_, Int.shiftRight_eq_div_pow version 16, by decide, by decide, by decide,
    by decide, by decide⟩
  unfold versionSupported
  cases isDMoMM <;> simp <;> tauto

/-! ### The brush indices come out in increasing order -/

theorem setInsert_sorted (a : Nat) (l : List Nat) (h : l.Pairwise (· < ·)) :
    (setInsert a l).Pairwise (· < ·) := by
  induction l with
  | nil => simp [setInsert]
  | cons x xs ih =>
    unfold setInsert
    have hx := List.pairwise_cons.1 h
    split_ifs with h1 h2
    · refine List.pairwise_cons.2 ⟨?_, h⟩
      intro b hb
      rcases List.mem_cons.1 hb with hb | hb
      · rw [hb]; exact h1
      · exact lt_trans h1 (hx.1 b hb)
    · exact h
    · refine List.pairwise_cons.2 ⟨?_, ih hx.2⟩
      intro b hb
      rcases (mem_setInsert a b xs).1 hb with hb | hb
      · rw [hb]; omega
      · exact hx.1 b hb

theorem insertLeafBrushes_sorted (lb : List Nat) (k idx : Nat) (set set1 : List Nat)
    (h : set.Pairwise (· < ·)) (hr : insertLeafBrushes lb k idx set = .ok set1) :
    set1.Pairwise (· < ·) := by
  induction k generalizing idx set with
  | zero =>
    simp only [insertLeafBrushes, Except.ok.injEq] at hr
    rw [← hr]; exact h
  | succ k ih =>
    unfold insertLeafBrushes at hr
    split at hr
    · simp at hr
    · exact ih _ _ (setInsert_sorted _ _ h) hr

theorem traverseLoop_sorted (version : Int) (nodes : List dnode_t)
    (leaves_v0 leaves : List dleaf_t) (leafbrushes : List Nat) (fuel : Nat) (curr : Int)
    (s set result : List Nat) (h : set.Pairwise (· < ·))
    (hr : traverseLoop version nodes leaves_v0 leaves leafbrushes fuel curr s set
      = .ok result) :
    result.Pairwise (· < ·) := by
  induction fuel generalizing curr s set with
  | zero => simp [traverseLoop] at hr
  | succ fuel ih =>
    unfold traverseLoop at hr
    split_ifs at hr with hcond
    · split at hr
      · simp at hr
      · split at hr
        · simp at hr
        · split at hr
          · simp at hr
          · rename_i set1 hins
            split at hr
            · simp at hr
            · split at hr
              · simp at hr
              · exact ih _ _ _ (insertLeafBrushes_sorted _ _ _ _ _ h hins) hr
    · simp only [Except.ok.injEq] at hr
      rw [← hr]; exact h

/-- C16: whatever the lumps hold, when the traversal returns, the sequence of brush
indices it hands to the mesh builder is strictly increasing: ascending and without a
repeated index. -/
theorem brush_indices_strictly_increasing (version : Int) (nodes : List dnode_t)
    (leaves_v0 leaves : List dleaf_t) (leafbrushes : List Nat) (fuel : Nat)
    (mapBrushesIndex : List Nat)
    (h : traverse version nodes leaves_v0 leaves leafbrushes fuel = .ok mapBrushesIndex) :
    mapBrushesIndex.Pairwise (· < ·) ∧ mapBrushesIndex.Nodup :=
  have hs := traverseLoop_sorted version nodes leaves_v0 leaves leafbrushes fuel 0 [] []
    mapBrushesIndex List.Pairwise.nil h
  ⟨hs, hs.imp (fun h => Nat.ne_of_lt h)⟩

/-- Witness of C16: the leaf-brush entries 7, 3, 3, 5 spread over the leaves of
`threeLeafNodes` give the sequence 3, 5, 7. -/
theorem brush_indices_strictly_increasing_witness :
    traverse 20 threeLeafNodes [] threeLeaves [7, 3, 3, 5] 6 = .ok [3, 5, 7]
      ∧ [3, 5, 7].Pairwise (· < ·) ∧ [3, 5, 7].Nodup :=
  ⟨by decide,
    brush_indices_strictly_increasing 20 threeLeafNodes [] threeLeaves [7, 3, 3, 5] 6
      [3, 5, 7] (by decide)⟩

/-! ### Searching the text of the entity lump -/

theorem startsWith_length {α : Type} [DecidableEq α] (needle l : List α)
    (h : startsWith needle l = true) : needle.length ≤ l.length := by
  induction needle generalizing l with
  | nil => simp
  | cons a as ih =>
    cases l with
    | nil => simp [startsWith] at h
    | cons b bs =>
      simp only [startsWith, Bool.and_eq_true, decide_eq_true_eq] at h
      simpa using ih bs h.2

theorem startsWith_getElem? {α : Type} [DecidableEq α] (needle l : List α)
    (h : startsWith needle l = true) (k : Nat) (hk : k < needle.length) :
    l[k]? = needle[k]? := by
  induction needle generalizing l k with
  | nil => simp at hk
  | cons a as ih =>
    cases l with
    | nil => simp [startsWith] at h
    | cons b bs =>
      simp only [startsWith, Bool.and_eq_true, decide_eq_true_eq] at h
      cases k with
      | zero => simp [h.1]
      | succ k =>
        simp only [List.getElem?_cons_succ]
        exact ih bs h.2 k (by simpa using hk)

theorem findSub_some_spec {α : Type} [DecidableEq α] (needle l : List α) (i : Nat)
    (h : findSub needle l = some i) :
    startsWith needle (l.drop i) = true ∧ ∀ j, j < i → startsWith needle (l.drop j) = false := by
  induction l generalizing i with
  | nil =>
    unfold findSub at h
    split_ifs at h with hn
    simp only [Option.some.injEq] at h
    subst h
    subst hn
    exact ⟨rfl, fun j hj => absurd hj (Nat.not_lt_zero j)⟩
  | cons c cs ih =>
    unfold findSub at h
    split_ifs at h with hs
    · simp only [Option.some.injEq] at h
      subst h
      exact ⟨hs, fun j hj => absurd hj (Nat.not_lt_zero j)⟩
    · cases hf : findSub needle cs with
      | none => simp [hf] at h
      | some k =>
        simp only [hf, Option.map_some', Option.some.injEq] at h
        subst h
        obtain ⟨h1, h2⟩ := ih k hf
        refine ⟨by simpa using h1, fun j hj => ?_⟩
        cases j with
        | zero => simpa using hs
        | succ j => simpa using h2 j (by omega)

theorem findSub_none_spec {α : Type} [DecidableEq α] (needle l : List α) (hne : needle ≠ [])
    (h : findSub needle l = none) (j : Nat) : startsWith needle (l.drop j) = false := by
  induction l generalizing j with
  | nil =>
    cases needle with
    | nil => exact absurd rfl hne
    | cons a as => simp [startsWith]
  | cons c cs ih =>
    unfold findSub at h
    split_ifs at h with hs
    cases hf : findSub needle cs with
    | some k => simp [hf] at h
    | none =>
      cases j with
      | zero => simpa using hs
      | succ j => simpa using ih hf j

theorem findSub_bound {α : Type} [DecidableEq α] (needle l : List α) (i : Nat)
    (h : findSub needle l = some i) : i + needle.length ≤ l.length ∨ needle = [] := by
  by_cases hn : needle = []
  · exact Or.inr hn
  · left
    have h1 := startsWith_length _ _ (findSub_some_spec needle l i h).1
    rw [List.length_drop] at h1
    have hpos : 0 < needle.length := List.length_pos.2 hn
    omega

theorem takeWhile_drop_of_le {α : Type} (p : α → Bool) (l : List α) (k : Nat)
    (h : k ≤ (l.takeWhile p).length) : (l.drop k).takeWhile p = (l.takeWhile p).drop k := by
  induction l generalizing k with
  | nil => simp
  | cons c cs ih =>
    cases k with
    | zero => simp
    | succ k =>
      by_cases hc : p c = true
      · rw [List.takeWhile_cons_of_pos hc] at h ⊢
        simp only [List.drop_succ_cons]
        exact ih k (by simpa using h)
      · rw [List.takeWhile_cons_of_neg hc] at h
        simp at h

theorem length_takeWhile_lt_of_mem {α : Type} (p : α → Bool) (l : List α) (a : α)
    (ha : a ∈ l) (hp : p a = false) : (l.takeWhile p).length < l.length := by
  induction l with
  | nil => simp at ha
  | cons c cs ih =>
    by_cases hc : p c = true
    · rw [List.takeWhile_cons_of_pos hc]
      rcases List.mem_cons.1 ha with h | h
      · rw [h, hc] at hp; simp at hp
      · simpa using ih h
    · rw [List.takeWhile_cons_of_neg hc]
      simp

theorem cstrFrom_text (buf : List Nat) (p : Nat) (hnul : 0 ∈ buf)
    (hp : p ≤ (lumpText buf).length) : cstrFrom buf p = some ((lumpText buf).drop p) := by
  unfold cstrFrom
  have h1 := takeWhile_drop_of_le (fun c => decide (c ≠ 0)) buf p hp
  have h2 := length_takeWhile_lt_of_mem (fun c => decide (c ≠ 0)) buf 0 hnul (by simp)
  unfold lumpText at hp ⊢
  simp only [h1, List.length_drop]
  rw [if_pos (by omega)]

theorem cstrFrom_no_nul (buf : List Nat) (p : Nat) (hnul : 0 ∉ buf) : cstrFrom buf p = none := by
  unfold cstrFrom
  have h : (buf.drop p).takeWhile (fun c => decide (c ≠ 0)) = buf.drop p := by
    rw [List.takeWhile_eq_self_iff]
    intro x hx
    have hx1 : x ∈ buf := List.mem_of_mem_drop hx
    simp only [ne_eq, decide_not, Bool.not_eq_true', decide_eq_false_iff_not]
    intro h0
    exact hnul (h0 ▸ hx1)
  simp only [h, Nat.lt_irrefl, if_false]

theorem strstr_text (buf : List Nat) (p : Nat) (needle : List Nat) (hnul : 0 ∈ buf)
    (hp : p ≤ (lumpText buf).length) :
    strstr buf p needle = .ok ((findSub needle ((lumpText buf).drop p)).map (· + p)) := by
  unfold strstr
  rw [cstrFrom_text buf p hnul hp]

theorem countSub_drop_le {α : Type} [DecidableEq α] (needle l : List α) (k : Nat) :
    countSub needle (l.drop k) ≤ countSub needle l := by
  induction l generalizing k with
  | nil => simp
  | cons c cs ih =>
    cases k with
    | zero => simp
    | succ k =>
      simp only [List.drop_succ_cons]
      exact le_trans (ih k) (by simp [countSub])

theorem countSub_of_startsWith {α : Type} [DecidableEq α] (needle l : List α) (j : Nat)
    (hne : needle ≠ []) (h : startsWith needle (l.drop j) = true) :
    1 + countSub needle (l.drop (j + 1)) ≤ countSub needle l := by
  induction l generalizing j with
  | nil =>
    cases needle with
    | nil => exact absurd rfl hne
    | cons a as => simp [startsWith] at h
  | cons c cs ih =>
    cases j with
    | zero =>
      simp only [List.drop_zero] at h
      simp [countSub, h]
    | succ j =>
      simp only [List.drop_succ_cons] at h ⊢
      exact le_trans (ih j h) (by simp [countSub])

theorem scanLoop_length {F : Type} [Zero F] (sc : Scanf F) (buf : List Nat) (hnul : 0 ∈ buf)
    (fuel ptr : Nat) (acc : SptLandmarkList F) (hp : ptr ≤ (lumpText buf).length) :
    (scanLoop sc buf fuel ptr acc).2.length
      ≤ acc.length + countSub blockEnd ((lumpText buf).drop ptr) := by
  induction fuel generalizing ptr acc with
  | zero => simp [scanLoop]
  | succ fuel ih =>
    rw [scanLoop, strstr_text buf ptr _ hnul hp]
    cases hf : findSub (cstr "\"classname\" \"info_landmark\"") ((lumpText buf).drop ptr) with
    | none => simp
    | some i =>
      simp only [Option.map_some']
      have hfound : i + ptr ≤ (lumpText buf).length := by
        rcases findSub_bound _ _ _ hf with h | h
        · rw [List.length_drop] at h; omega
        · simp [cstr] at h
      rw [strstr_text buf (i + ptr) _ hnul hfound]
      cases hj : findSub (cstr "\n\x7d") ((lumpText buf).drop (i + ptr)) with
      | none => simp
      | some j =>
        simp only [Option.map_some']
        have hend : j + (i + ptr) + 2 ≤ (lumpText buf).length := by
          rcases findSub_bound _ _ _ hj with h | h
          · rw [List.length_drop] at h
            simp [cstr] at h
            omega
          · simp [cstr] at h
        have hstart := (findSub_some_spec _ _ _ hj).1
        have hcount1 := countSub_of_startsWith (cstr "\n\x7d") ((lumpText buf).drop (i + ptr)) j
          (by simp [cstr]) hstart
        have hcount2 := countSub_drop_le (cstr "\n\x7d") (lumpText buf |>.drop ptr) i
        have hcount3 := countSub_drop_le (cstr "\n\x7d")
          ((lumpText buf).drop (i + ptr) |>.drop (j + 1)) 1
        simp only [List.drop_drop] at hcount1 hcount2 hcount3
        rw [show ptr + i = i + ptr by omega] at hcount2
        rw [show i + ptr + (j + 1) + 1 = j + (i + ptr) + 2 by omega] at hcount3
        have hacc : ∀ r : Vector F × Option String,
            (match r.2 with
              | some name => acc ++ [(name, r.1)]
              | none => acc).length ≤ acc.length + 1 := by
          intro r
          cases r.2 <;> simp
        generalize scanBlock sc buf (j + (i + ptr)) buf.length
          (backToBrace buf (i + ptr) + 2).toNat 0 none false = r
        have hr := hacc r
        unfold blockEnd
        split_ifs
        · simp only
          omega
        · have := ih (j + (i + ptr) + 2)
            (match r.2 with
              | some name => acc ++ [(name, r.1)]
              | none => acc) hend
          unfold blockEnd at this
          omega

set_option maxRecDepth 100000 in
/-- C18: the number of landmarks the scan records never exceeds the number of block
ends `\n}` in the text of the lump (the characters before the first NUL): every pass of
the scan loop records at most one landmark and resumes two characters past the block
end it matched, so that an occurrence of the class pair before that block end is not
matched again. On `doubleClassLump`, whose one block holds the class pair twice, the
scan records one landmark. -/
theorem landmarks_le_block_ends {F : Type} [Zero F] (sc : Scanf F) (ents : List Nat) :
    (scanLandmarks sc ents).2.length ≤ countSub blockEnd (lumpText ents)
      ∧ countSub landmarkPair (lumpText doubleClassLump) = 2
      ∧ countSub blockEnd (lumpText doubleClassLump) = 1
      ∧ scanLandmarks crtScanf doubleClassLump = (none, [("lm", ⟨0, 0, 0⟩)]) := by
  refine ⟨?_, by decide!, by decide!, by decide!⟩
  unfold scanLandmarks
  split_ifs with h
  · simp
  · by_cases hnul : 0 ∈ ents
    · simpa using scanLoop_length sc ents hnul ents.length 0 [] (Nat.zero_le _)
    · have hlen : 0 < ents.length := List.length_pos.2 h
      obtain ⟨n, hn⟩ := Nat.exists_eq_succ_of_ne_zero (Nat.pos_iff_ne_zero.1 hlen)
      rw [hn, scanLoop]
      simp [strstr, cstrFrom_no_nul ents 0 hnul]

/-! ### When the scan reports a bad entity lump -/

theorem lumpText_length_lt (buf : List Nat) (hnul : 0 ∈ buf) :
    (lumpText buf).length < buf.length :=
  length_takeWhile_lt_of_mem (fun c => decide (c ≠ 0)) buf 0 hnul (by simp)

theorem scanLoop_abort {F : Type} [Zero F] (sc : Scanf F) (buf : List Nat) (hnul : 0 ∈ buf)
    (fuel ptr : Nat) (acc : SptLandmarkList F) (hp : ptr ≤ (lumpText buf).length)
    (hfuel : buf.length - ptr ≤ fuel) (hpos : 0 < fuel) :
    ((∃ o, ptr ≤ o ∧ Unclosed (lumpText buf) o) →
        (scanLoop sc buf fuel ptr acc).1 = some (.error .badEntityLump))
      ∧ ((¬ ∃ o, ptr ≤ o ∧ Unclosed (lumpText buf) o) →
        (scanLoop sc buf fuel ptr acc).1 = none) := by
  induction fuel generalizing ptr acc with
  | zero => exact absurd hpos (Nat.lt_irrefl 0)
  | succ fuel ih =>
    rw [scanLoop, strstr_text buf ptr _ hnul hp]
    cases hf : findSub (cstr "\"classname\" \"info_landmark\"") ((lumpText buf).drop ptr) with
    | none =>
      refine ⟨fun hex => ?_, fun _ => rfl⟩
      obtain ⟨o, ho, hocc, _⟩ := hex
      have := findSub_none_spec _ _ (by simp [cstr]) hf (o - ptr)
      rw [List.drop_drop, show ptr + (o - ptr) = o by omega] at this
      unfold landmarkPair at hocc
      rw [this] at hocc
      exact absurd hocc (by simp)
    | some i =>
      simp only [Option.map_some']
      obtain ⟨hocc, hfirst⟩ := findSub_some_spec _ _ _ hf
      rw [List.drop_drop] at hocc
      have hlenocc := startsWith_length _ _ hocc
      rw [List.length_drop] at hlenocc
      have hpairlen : (cstr "\"classname\" \"info_landmark\"").length = 27 := by decide
      rw [hpairlen] at hlenocc
      have hfound : i + ptr ≤ (lumpText buf).length := by omega
      rw [strstr_text buf (i + ptr) _ hnul hfound]
      cases hj : findSub (cstr "\n\x7d") ((lumpText buf).drop (i + ptr)) with
      | none =>
        refine ⟨fun _ => rfl, fun hno => ?_⟩
        exfalso
        apply hno
        refine ⟨i + ptr, by omega, ?_, ?_⟩
        · unfold landmarkPair
          rw [show i + ptr = ptr + i by omega]
          exact hocc
        · intro e he
          have := findSub_none_spec _ _ (by simp [cstr]) hj (e - (i + ptr))
          rw [List.drop_drop, show i + ptr + (e - (i + ptr)) = e by omega] at this
          exact this
      | some j =>
        simp only [Option.map_some']
        obtain ⟨hclose, _⟩ := findSub_some_spec _ _ _ hj
        rw [List.drop_drop] at hclose
        have hlenclose := startsWith_length _ _ hclose
        rw [List.length_drop] at hlenclose
        have hcloselen : (cstr "\n\x7d").length = 2 := by decide
        rw [hcloselen] at hlenclose
        have hend : j + (i + ptr) + 2 ≤ (lumpText buf).length := by omega
        have hbrace : (lumpText buf)[i + ptr + j + 1]? = some 125 := by
          have := startsWith_getElem? _ _ hclose 1 (by rw [hcloselen]; omega)
          rw [List.getElem?_drop] at this
          rw [this]
          decide
        have hiff : (∃ o, ptr ≤ o ∧ Unclosed (lumpText buf) o)
            ↔ ∃ o, j + (i + ptr) + 2 ≤ o ∧ Unclosed (lumpText buf) o := by
          constructor
          · rintro ⟨o, _, hun⟩
            refine ⟨o, ?_, hun⟩
            have hquote : (lumpText buf)[o]? = some 34 := by
              have := startsWith_getElem? _ _ hun.1 0 (by unfold landmarkPair; rw [hpairlen]; omega)
              rw [List.getElem?_drop] at this
              rw [Nat.add_zero] at this
              rw [this]
              decide
            have hlt : i + ptr + j < o := by
              by_contra hge
              have := hun.2 (i + ptr + j) (by omega)
              unfold blockEnd at this
              rw [this] at hclose
              exact absurd hclose (by simp)
            have hne : o ≠ i + ptr + j + 1 := by
              intro heq
              rw [heq, hbrace] at hquote
              simp at hquote
            omega
          · rintro ⟨o, ho, hun⟩
            exact ⟨o, by omega, hun⟩
        have htext := lumpText_length_lt buf hnul
        generalize scanBlock sc buf (j + (i + ptr)) buf.length
          (backToBrace buf (i + ptr) + 2).toNat 0 none false = r
        split_ifs with hstop
        · refine ⟨fun hex => ?_, fun _ => rfl⟩
          exfalso
          obtain ⟨o, ho, hun⟩ := hiff.1 hex
          have := startsWith_length _ _ hun.1
          rw [List.length_drop] at this
          unfold landmarkPair at this
          rw [hpairlen] at this
          omega
        · have hrec := ih (j + (i + ptr) + 2)
            (match r.2 with
              | some name => acc ++ [(name, r.1)]
              | none => acc) hend (by omega) (by omega)
          rw [hiff]
          exact hrec

set_option maxRecDepth 100000 in
/-- C14, the code at failing inputs: one well-formed landmark block with the origin
`1 2 3` and the targetname `lm`. With the `targetname` line before the `classname`
line the scan records `("lm", (1,2,3))`. With the `targetname` line as the last line
before the closing brace the scan records nothing, and `LoadMapFile` succeeds with an
empty landmark list; with the `origin` line last it records `lm` at the zero vector.
The line loop stops at `nextNl >= endSearch`, and `endSearch` is the newline that ends
the last line of the block, so that line is never scanned. -/
theorem last_line_of_block_not_scanned :
    scanLandmarks crtScanf targetnameFirstLump = (none, [("lm", ⟨1, 2, 3⟩)])
      ∧ scanLandmarks crtScanf targetnameLastLump = (none, [])
      ∧ scanLandmarks crtScanf originLastLump = (none, [("lm", ⟨0, 0, 0⟩)])
      ∧ (loadedState.LoadMapFile
            (crtEnv (oneFile "lm" (fileWithEntities targetnameLastLump))) 5 "lm" true).1 = .ok
      ∧ (loadedState.LoadMapFile
            (crtEnv (oneFile "lm" (fileWithEntities targetnameLastLump))) 5 "lm"
            true).2.bspLandmarks = [] := by
  refine ⟨by decide!, by decide!, by decide!, by decide!, by decide!⟩

/-- C15: when the call does read the file and all lumps are read, and the entity lump
holds a NUL, `LoadMapFile` fails with `bad entity lump` if and only if the text of the
lump (the characters before the first NUL) has an occurrence of the pair
`"classname" "info_landmark"` with no newline followed by a closing brace at or after
it. When there is no such occurrence the scan ends without an error or a fault. -/
theorem bad_entity_lump_iff {F P : Type} [Zero F] (env : Env F P) (fuel : Nat)
    (self : MapOverlay F P) (filename : String) (ztest : Bool) (data ents : List Nat)
    (hreload : self.noNeedToReload filename ztest = false)
    (hopen : env.files filename = some data)
    (hread : (readLumps env.fmt env.DoesGameLookLikeDMoMM data).toOption.map
      (fun l => l.ents) = some ents)
    (hnul : 0 ∈ ents) :
    ((self.LoadMapFile env fuel filename ztest).1 = .fail .badEntityLump
        ↔ ∃ o, Unclosed (lumpText ents) o)
      ∧ ((¬ ∃ o, Unclosed (lumpText ents) o) → (scanLandmarks env.scanf ents).1 = none) := by
  have hne : ents ≠ [] := List.ne_nil_of_mem hnul
  have hlen : 0 < ents.length := List.length_pos.2 hne
  have habort := scanLoop_abort env.scanf ents hnul ents.length 0 [] (Nat.zero_le _)
    (by omega) hlen
  have hex : (∃ o, 0 ≤ o ∧ Unclosed (lumpText ents) o) ↔ ∃ o, Unclosed (lumpText ents) o :=
    ⟨fun ⟨o, _, h⟩ => ⟨o, h⟩, fun ⟨o, h⟩ => ⟨o, Nat.zero_le _, h⟩⟩
  rw [hex] at habort
  refine ⟨?_, fun hun => ?_⟩
  · cases hr : readLumps env.fmt env.DoesGameLookLikeDMoMM data with
    | error a => simp [hr, Except.toOption] at hread
    | ok l =>
      have hents : l.ents = ents := by simpa [hr, Except.toOption] using hread
      unfold MapOverlay.LoadMapFile
      simp only [hreload, Bool.false_eq_true, if_false, hopen, hr, hents, scanLandmarks, hne]
      by_cases hun : ∃ o, Unclosed (lumpText ents) o
      · simp only [habort.1 hun, LoadResult.ofAbort, hun]
      · simp only [habort.2 hun, hun, iff_false]
        split
        · simp
        · split <;> simp
  · unfold scanLandmarks
    rw [if_neg hne]
    exact habort.2 hun

set_option maxRecDepth 100000 in
/-- Witness of C15: a lump that consists of the class pair and the terminating NUL, and
a lump whose only block names the landmark class and is not closed; both loads fail
with `bad entity lump`. -/
theorem bad_entity_lump_iff_witness :
    (loadedState.LoadMapFile (crtEnv (oneFile "p" (fileWithEntities pairAtStartLump))) 5 "p"
        true).1 = .fail .badEntityLump
      ∧ (loadedState.LoadMapFile (crtEnv (oneFile "u" (fileWithEntities unclosedLump))) 5 "u"
          true).1 = .fail .badEntityLump
      ∧ ((loadedState.LoadMapFile (crtEnv (oneFile "p" (fileWithEntities pairAtStartLump))) 5
          "p" true).1 = .fail .badEntityLump ↔ ∃ o, Unclosed (lumpText pairAtStartLump) o) :=
  ⟨by decide!, by decide!,
    (bad_entity_lump_iff (crtEnv (oneFile "p" (fileWithEntities pairAtStartLump))) 5
      loadedState "p" true (fileWithEntities pairAtStartLump) pairAtStartLump (by decide!)
      (by decide!) (by decide!) (by decide!)).1⟩

/-! ### The traversal on a finite tree -/

theorem traverseLoopTrace_fst (version : Int) (nodes : List dnode_t)
    (leaves_v0 leaves : List dleaf_t) (leafbrushes : List Nat) (fuel : Nat) (curr : Int)
    (s set : List Nat) (trace : List Int) :
    traverseLoop version nodes leaves_v0 leaves leafbrushes fuel curr s set
      = (traverseLoopTrace version nodes leaves_v0 leaves leafbrushes fuel curr s set
          trace).map Prod.fst := by
  induction fuel generalizing curr s set trace with
  | zero => rfl
  | succ fuel ih =>
    unfold traverseLoop traverseLoopTrace
    split_ifs
    · cases descend nodes (fuel + 1) curr s with
      | error e => rfl
      | ok r =>
        obtain ⟨c1, s1⟩ := r
        simp only
        cases leafAt version leaves_v0 leaves (-1 - c1) with
        | none => rfl
        | some leaf =>
          simp only
          cases insertLeafBrushes leafbrushes leaf.numleafbrushes leaf.firstleafbrush set with
          | error e => rfl
          | ok set1 =>
            simp only
            cases s1 with
            | nil => rfl
            | cons top s2 =>
              simp only
              cases nodes[top]? with
              | none => rfl
              | some n => exact ih _ _ _ _
    · rfl

theorem subtreeLeaves_ne_nil (nodes : List dnode_t) (d : Nat) (c : Int) (ls : List Int)
    (h : subtreeLeaves nodes d c = some ls) : ls ≠ [] := by
  induction d generalizing c ls with
  | zero =>
    unfold subtreeLeaves at h
    split_ifs at h
    simp only [Option.some.injEq] at h
    rw [← h]; simp
  | succ d ih =>
    unfold subtreeLeaves at h
    split_ifs at h
    · simp only [Option.some.injEq] at h
      rw [← h]; simp
    · split at h
      · simp at h
      · split at h
        · rename_i a b ha hb
          simp only [Option.some.injEq] at h
          rw [← h]
          have := ih _ _ ha
          simp [this]
        · simp at h

theorem subtreeLeaves_succ (nodes : List dnode_t) (d : Nat) (c : Int) (ls : List Int)
    (h : subtreeLeaves nodes d c = some ls) : subtreeLeaves nodes (d + 1) c = some ls := by
  induction d generalizing c ls with
  | zero =>
    unfold subtreeLeaves at h
    split_ifs at h with hc
    unfold subtreeLeaves
    simp only [hc, if_true]
    exact h
  | succ d ih =>
    unfold subtreeLeaves at h
    rw [subtreeLeaves]
    split_ifs at h ⊢ with hc
    · exact h
    · split at h
      · simp at h
      · rename_i n hn
        split at h
        · rename_i a b ha hb
          rw [ih _ _ ha, ih _ _ hb]
          exact h
        · simp at h

theorem subtreeLeaves_mono (nodes : List dnode_t) (d e : Nat) (c : Int) (ls : List Int)
    (h : subtreeLeaves nodes d c = some ls) (hde : d ≤ e) :
    subtreeLeaves nodes e c = some ls := by
  induction hde with
  | refl => exact h
  | step _ ih => exact subtreeLeaves_succ _ _ _ _ ih

theorem descend_mono (nodes : List dnode_t) (f g : Nat) (curr : Int) (s : List Nat)
    (r : Int × List Nat) (h : descend nodes f curr s = .ok r) (hfg : f ≤ g) :
    descend nodes g curr s = .ok r := by
  induction f generalizing g curr s with
  | zero => simp [descend] at h
  | succ f ih =>
    obtain ⟨g1, rfl⟩ : ∃ g1, g = g1 + 1 := ⟨g - 1, by omega⟩
    unfold descend at h ⊢
    split_ifs at h ⊢ with h0
    · split at h
      · simp at h
      · rename_i n hn
        exact ih _ _ _ h (by omega)
    · exact h

theorem descend_spine (nodes : List dnode_t) (D : Nat) (hN : nodes.length ≤ 65536) (d : Nat)
    (curr : Int) (s : List Nat) (A R : List Int)
    (hA : subtreeLeaves nodes d curr = some A) (hd : d ≤ D)
    (hR : stackLeaves nodes D s = some R) :
    ∃ l s1 R1, descend nodes (d + 1) curr s = .ok (l, s1) ∧ l < 0
      ∧ stackLeaves nodes D s1 = some R1 ∧ A ++ R = l :: R1
      ∧ (0 ≤ curr ∨ s ≠ [] → s1 ≠ []) := by
  induction d generalizing curr s A R with
  | zero =>
    unfold subtreeLeaves at hA
    split_ifs at hA with hc
    simp only [Option.some.injEq] at hA
    refine ⟨curr, s, R, ?_, hc, hR, by rw [← hA]; rfl, ?_⟩
    · unfold descend
      simp only [not_le.mpr hc, if_false]
    · intro h
      rcases h with h | h
      · omega
      · exact h
  | succ d ih =>
    unfold subtreeLeaves at hA
    split_ifs at hA with hc
    · simp only [Option.some.injEq] at hA
      refine ⟨curr, s, R, ?_, hc, hR, by rw [← hA]; rfl, ?_⟩
      · unfold descend
        simp only [not_le.mpr hc, if_false]
      · intro h
        rcases h with h | h
        · omega
        · exact h
    · split at hA
      · simp at hA
      · rename_i n hn
        split at hA
        · rename_i a b ha hb
          simp only [Option.some.injEq] at hA
          have hlt : curr.toNat < nodes.length := (List.getElem?_eq_some.1 hn).1
          have hmod : curr.toNat % 65536 = curr.toNat := Nat.mod_eq_of_lt (by omega)
          have hstack : stackLeaves nodes D (curr.toNat :: s) = some (b ++ R) := by
            unfold stackLeaves
            simp only [hn, subtreeLeaves_mono nodes d D _ _ hb (by omega), hR]
          obtain ⟨l, s1, R1, h1, h2, h3, h4, h5⟩ := ih n.children0 (curr.toNat :: s) a (b ++ R)
            ha (by omega) hstack
          refine ⟨l, s1, R1, ?_, h2, h3, ?_, fun _ => h5 (Or.inr (List.cons_ne_nil _ _))⟩
          · rw [descend]
            simp only [not_lt.mp hc, if_true, hn, hmod]
            exact h1
          · rw [← hA, List.append_assoc]
            exact h4
        · simp at hA

theorem insertLeafBrushes_mem_iff (lb : List Nat) (k idx : Nat) (set : List Nat)
    (h : ∀ i, i < k → idx + i < lb.length) :
    ∃ set1, insertLeafBrushes lb k idx set = .ok set1
      ∧ ∀ b, b ∈ set1 ↔ b ∈ set ∨ ∃ i, i < k ∧ lb[idx + i]? = some b := by
  induction k generalizing idx set with
  | zero => exact ⟨set, rfl, fun b => by simp⟩
  | succ k ih =>
    have h0 : idx < lb.length := by simpa using h 0 (Nat.succ_pos k)
    obtain ⟨set1, h1, h2⟩ := ih (idx + 1) (setInsert lb[idx] set)
      (fun i hi => by have := h (i + 1) (Nat.succ_lt_succ hi); omega)
    refine ⟨set1, ?_, fun b => ?_⟩
    · simp only [insertLeafBrushes, List.getElem?_eq_getElem h0, h1]
    · rw [h2, mem_setInsert]
      constructor
      · rintro (h3 | ⟨i, hi, h3⟩)
        · rcases h3 with h3 | h3
          · right
            exact ⟨0, Nat.succ_pos k, by rw [h3]; simp [List.getElem?_eq_getElem h0]⟩
          · left; exact h3
        · right
          exact ⟨i + 1, Nat.succ_lt_succ hi, by rw [← h3]; congr 1; omega⟩
      · rintro (h3 | ⟨i, hi, h3⟩)
        · left; right; exact h3
        · cases i with
          | zero =>
            left; left
            simp only [Nat.add_zero, List.getElem?_eq_getElem h0, Option.some.injEq] at h3
            exact h3.symm
          | succ i =>
            right
            exact ⟨i, Nat.lt_of_succ_lt_succ hi, by rw [← h3]; congr 1; omega⟩

theorem insertLeafBrushes_out_of_bounds (lb : List Nat) (k idx : Nat) (set : List Nat)
    (h : ¬ ∀ i, i < k → idx + i < lb.length) :
    insertLeafBrushes lb k idx set = .error .outOfBounds := by
  induction k generalizing idx set with
  | zero => exact absurd (fun i hi => absurd hi (Nat.not_lt_zero i)) h
  | succ k ih =>
    unfold insertLeafBrushes
    cases hget : lb[idx]? with
    | none => rfl
    | some b =>
      simp only
      apply ih
      intro hall
      apply h
      intro i hi
      cases i with
      | zero => simpa using (List.getElem?_eq_some.1 hget).1
      | succ i =>
        have := hall i (Nat.lt_of_succ_lt_succ hi)
        omega

theorem subtreeLeaves_neg (nodes : List dnode_t) (d : Nat) (c : Int) (hc : c < 0) :
    subtreeLeaves nodes d c = some [c] := by
  cases d <;> simp [subtreeLeaves, hc]

theorem traverseLoopTrace_run (version : Int) (nodes : List dnode_t)
    (leaves_v0 leaves : List dleaf_t) (leafbrushes : List Nat) (D : Nat)
    (hN : nodes.length ≤ 65536) (fuel : Nat) (curr : Int) (s set : List Nat)
    (trace A R : List Int)
    (hA : subtreeLeaves nodes D curr = some A) (hR : stackLeaves nodes D s = some R)
    (hfuel : (A ++ R).length + D ≤ fuel) :
    (traverseLoopTrace version nodes leaves_v0 leaves leafbrushes fuel curr s set trace
          = .error .outOfBounds
        ∧ ¬ ∀ c ∈ (A ++ R).dropLast,
            leafInBounds version leaves_v0 leaves leafbrushes c = true)
      ∨ ∃ set1,
          traverseLoopTrace version nodes leaves_v0 leaves leafbrushes fuel curr s set trace
            = .ok (set1, trace ++ (A ++ R).dropLast)
          ∧ ∀ b, b ∈ set1 ↔
              b ∈ set ∨ ∃ c ∈ (A ++ R).dropLast,
                IsLeafBrush version leaves_v0 leaves leafbrushes c b := by
  induction fuel generalizing curr s set trace A R with
  | zero =>
    have := subtreeLeaves_ne_nil nodes D curr A hA
    have hlen : 0 < A.length := List.length_pos.2 this
    simp only [List.length_append] at hfuel
    omega
  | succ fuel ih =>
    by_cases hcond : 0 ≤ curr ∨ s ≠ []
    · obtain ⟨l, s1, R1, h1, h2, h3, h4, h5⟩ :=
        descend_spine nodes D hN D curr s A R hA (le_refl D) hR
      have hApos : 0 < A.length := List.length_pos.2 (subtreeLeaves_ne_nil nodes D curr A hA)
      have hdesc : descend nodes (fuel + 1) curr s = .ok (l, s1) :=
        descend_mono nodes (D + 1) (fuel + 1) curr s _ h1
          (by simp only [List.length_append] at hfuel; omega)
      cases s1 with
      | nil => exact absurd rfl (h5 hcond)
      | cons top s2 =>
        unfold stackLeaves at h3
        split at h3
        · simp at h3
        · rename_i m hm
          split at h3
          · rename_i A1 R2 hA1 hR2
            simp only [Option.some.injEq] at h3
            have hne : A1 ++ R2 ≠ [] := by
              have := subtreeLeaves_ne_nil nodes D _ A1 hA1
              simp [this]
            have hls : (A ++ R).dropLast = l :: (A1 ++ R2).dropLast := by
              rw [h4, ← h3, List.dropLast_cons_of_ne_nil hne]
            have hlen : (A1 ++ R2).length + D ≤ fuel := by
              have : (A ++ R).length = (A1 ++ R2).length + 1 := by rw [h4, ← h3]; simp
              omega
            rw [hls]
            unfold traverseLoopTrace
            simp only [hcond, if_true, hdesc]
            cases hleaf : leafAt version leaves_v0 leaves (-1 - l) with
            | none =>
              left
              refine ⟨rfl, fun hall => ?_⟩
              have := hall l (List.mem_cons_self _ _)
              simp [leafInBounds, hleaf] at this
            | some leaf =>
              simp only
              by_cases hrange : ∀ i, i < leaf.numleafbrushes →
                  leaf.firstleafbrush + i < leafbrushes.length
              · obtain ⟨set1, hins, hmem⟩ := insertLeafBrushes_mem_iff leafbrushes
                  leaf.numleafbrushes leaf.firstleafbrush set hrange
                simp only [hins, hm]
                rcases ih m.children1 s2 set1 (trace ++ [l]) A1 R2 hA1 hR2 hlen with
                  ⟨herr, hnot⟩ | ⟨set2, hok, hmem2⟩
                · left
                  exact ⟨herr, fun hall => hnot (fun c hc => hall c (List.mem_cons_of_mem _ hc))⟩
                · right
                  refine ⟨set2, ?_, fun b => ?_⟩
                  · rw [hok]
                    simp
                  · rw [hmem2, hmem]
                    constructor
                    · rintro ((h | ⟨i, hi, hb⟩) | ⟨c, hc, hb⟩)
                      · exact Or.inl h
                      · exact Or.inr ⟨l, List.mem_cons_self _ _, leaf, hleaf, i, hi, hb⟩
                      · exact Or.inr ⟨c, List.mem_cons_of_mem _ hc, hb⟩
                    · rintro (h | ⟨c, hc, hb⟩)
                      · exact Or.inl (Or.inl h)
                      · rcases List.mem_cons.1 hc with heq | hc
                        · subst heq
                          obtain ⟨leaf1, hleaf1, i, hi, hb1⟩ := hb
                          rw [hleaf] at hleaf1
                          simp only [Option.some.injEq] at hleaf1
                          subst hleaf1
                          exact Or.inl (Or.inr ⟨i, hi, hb1⟩)
                        · exact Or.inr ⟨c, hc, hb⟩
              · left
                rw [insertLeafBrushes_out_of_bounds leafbrushes _ _ set hrange]
                refine ⟨rfl, fun hall => ?_⟩
                have := hall l (List.mem_cons_self _ _)
                simp only [leafInBounds, hleaf, decide_eq_true_eq] at this
                exact hrange this
          · simp at h3
    · have hc : curr < 0 := by
        by_contra h
        exact hcond (Or.inl (not_lt.mp h))
      have hs : s = [] := by
        by_contra h
        exact hcond (Or.inr h)
      subst hs
      rw [subtreeLeaves_neg nodes D curr hc] at hA
      simp only [Option.some.injEq] at hA
      simp only [stackLeaves, Option.some.injEq] at hR
      subst hA
      subst hR
      right
      refine ⟨set, ?_, fun b => by simp⟩
      unfold traverseLoopTrace
      rw [if_neg hcond]
      simp

theorem traverseLoop_one (version : Int) (nodes : List dnode_t)
    (leaves_v0 leaves : List dleaf_t) (leafbrushes : List Nat) (curr : Int)
    (s set set1 : List Nat) :
    traverseLoop version nodes leaves_v0 leaves leafbrushes 1 curr s set = .ok set1
      ↔ curr < 0 ∧ s = [] ∧ set1 = set := by
  unfold traverseLoop
  by_cases hcond : 0 ≤ curr ∨ s ≠ []
  · rw [if_pos hcond]
    have hno : ¬ (curr < 0 ∧ s = [] ∧ set1 = set) := by
      rintro ⟨h1, h2, _⟩
      rcases hcond with h | h
      · omega
      · exact h h2
    simp only [hno, iff_false]
    unfold descend
    split_ifs with h0
    · cases nodes[curr.toNat]? with
      | none => simp
      | some n => simp [descend]
    · simp only
      cases leafAt version leaves_v0 leaves (-1 - curr) with
      | none => simp
      | some leaf =>
        simp only
        cases insertLeafBrushes leafbrushes leaf.numleafbrushes leaf.firstleafbrush set with
        | error e => simp
        | ok set2 =>
          simp only
          cases s with
          | nil => simp
          | cons top s2 =>
            simp only
            cases nodes[top]? with
            | none => simp
            | some n => simp [traverseLoop]
  · rw [if_neg hcond]
    have hc : curr < 0 := by
      by_contra h
      exact hcond (Or.inl (not_lt.mp h))
    have hs : s = [] := by
      by_contra h
      exact hcond (Or.inr h)
    simp only [Except.ok.injEq, hc, hs, true_and]
    exact eq_comm

theorem traverse_run (version : Int) (nodes : List dnode_t) (leaves_v0 leaves : List dleaf_t)
    (leafbrushes : List Nat) (d : Nat) (ls : List Int) (hnodes : nodes.length ≤ 65536)
    (htree : subtreeLeaves nodes d 0 = some ls) (fuel : Nat) (hfuel : ls.length + d ≤ fuel) :
    (traverseLoopTrace version nodes leaves_v0 leaves leafbrushes fuel 0 [] [] []
          = .error .outOfBounds
        ∧ ¬ ∀ c ∈ ls, leafInBounds version leaves_v0 leaves leafbrushes c = true)
      ∨ ∃ set,
          traverseLoopTrace version nodes leaves_v0 leaves leafbrushes fuel 0 [] [] []
            = .ok (set, ls.dropLast)
          ∧ ∀ b, b ∈ set ↔
              ∃ c ∈ ls.dropLast, IsLeafBrush version leaves_v0 leaves leafbrushes c b := by
  have hrun := traverseLoopTrace_run version nodes leaves_v0 leaves leafbrushes d hnodes fuel 0
    [] [] [] ls [] htree rfl (by simpa using hfuel)
  simp only [List.append_nil, List.nil_append, List.not_mem_nil, false_or] at hrun
  rcases hrun with ⟨h1, h2⟩ | h
  · left
    exact ⟨h1, fun hall => h2 (fun c hc => hall c (List.mem_of_mem_dropLast hc))⟩
  · right
    exact h

theorem wrapped_index_loop (nodes : List dnode_t)
    (h0 : nodes[0]? = some ⟨-1, 65536⟩) (hlast : nodes[65536]? = some ⟨-1, -1⟩)
    (fuel : Nat) :
    traverseLoop 20 nodes [] [⟨0, 0⟩] [] fuel 65536 [] [] = .error .fuel := by
  have hle : (0 : Int) ≤ 65536 := by norm_num
  have hneg : ¬ (0 : Int) ≤ -1 := by norm_num
  have htoNat : (65536 : Int).toNat = 65536 := by simp
  have hmod : 65536 % 65536 = 0 := by norm_num
  have hleaf : leafAt 20 [] [⟨0, 0⟩] (-1 - (-1 : Int)) = some ⟨0, 0⟩ := by decide
  induction fuel with
  | zero => rfl
  | succ fuel ih =>
    have hd : descend nodes (fuel + 1) 65536 [] = .error .fuel
        ∨ descend nodes (fuel + 1) 65536 [] = .ok (-1, [0]) := by
      cases fuel with
      | zero =>
        left
        simp only [descend, hle, if_true, htoNat, hlast]
      | succ fuel =>
        right
        simp only [descend, hle, hneg, if_true, if_false, htoNat, hlast, hmod]
    rw [traverseLoop]
    rw [if_pos (Or.inl hle)]
    rcases hd with hd | hd
    · rw [hd]
    · rw [hd]
      simp only [hleaf, insertLeafBrushes, h0]
      exact ih

theorem wrapped_index_traverse (nodes : List dnode_t)
    (h0 : nodes[0]? = some ⟨-1, 65536⟩) (hlast : nodes[65536]? = some ⟨-1, -1⟩)
    (fuel : Nat) :
    traverse 20 nodes [] [⟨0, 0⟩] [] fuel = .error .fuel := by
  have hneg : ¬ (0 : Int) ≤ -1 := by norm_num
  have htoNat : (0 : Int).toNat = 0 := by simp
  have hmod : 0 % 65536 = 0 := by norm_num
  have hleaf : leafAt 20 [] [⟨0, 0⟩] (-1 - (-1 : Int)) = some ⟨0, 0⟩ := by decide
  unfold traverse
  cases fuel with
  | zero => rfl
  | succ fuel =>
    have hd : descend nodes (fuel + 1) 0 [] = .error .fuel
        ∨ descend nodes (fuel + 1) 0 [] = .ok (-1, [0]) := by
      cases fuel with
      | zero =>
        left
        simp only [descend, le_refl, if_true, htoNat, h0]
      | succ fuel =>
        right
        simp only [descend, le_refl, hneg, if_true, if_false, htoNat, h0, hmod]
    rw [traverseLoop]
    rw [if_pos (Or.inl (le_refl 0))]
    rcases hd with hd | hd
    · rw [hd]
    · rw [hd]
      simp only [hleaf, insertLeafBrushes, h0]
      exact wrapped_index_loop nodes h0 hlast fuel

theorem bigNodes_zero : bigNodes[0]? = some ⟨-1, 65536⟩ := by
  unfold bigNodes
  exact List.getElem?_cons_zero

theorem bigNodes_filler : bigNodes[fillerCount + 1]? = some ⟨-1, -1⟩ := by
  unfold bigNodes
  rw [List.getElem?_cons_succ, List.getElem?_append_right (by rw [List.length_replicate])]
  rw [List.length_replicate, Nat.sub_self]
  exact List.getElem?_cons_zero

theorem fillerCount_succ : fillerCount + 1 = 65536 := by
  unfold fillerCount
  norm_num

theorem bigNodes_last : bigNodes[65536]? = some ⟨-1, -1⟩ := by
  rw [← fillerCount_succ]
  exact bigNodes_filler

theorem bigNodes_length : bigNodes.length = 65537 := by
  unfold bigNodes
  rw [List.length_cons, List.length_append, List.length_replicate, List.length_singleton]
  unfold fillerCount
  norm_num

theorem wrapped_index_subtree (nodes : List dnode_t)
    (h0 : nodes[0]? = some ⟨-1, 65536⟩) (hlast : nodes[65536]? = some ⟨-1, -1⟩) :
    subtreeLeaves nodes 2 0 = some [-1, -1, -1] := by
  have htoNat0 : (0 : Int).toNat = 0 := by simp
  have htoNat : (65536 : Int).toNat = 65536 := by simp
  have h1 : subtreeLeaves nodes 1 (-1) = some [-1] := by
    rw [subtreeLeaves, if_pos (by norm_num)]
  have h2 : subtreeLeaves nodes 0 (-1) = some [-1] := by
    rw [subtreeLeaves, if_pos (by norm_num)]
  have h3 : subtreeLeaves nodes 1 65536 = some [-1, -1] := by
    rw [subtreeLeaves, if_neg (by norm_num), htoNat, hlast]
    simp only [h2, List.cons_append, List.nil_append]
  rw [subtreeLeaves, if_neg (by norm_num), htoNat0, h0]
  simp only [h1, h3, List.cons_append, List.nil_append]

theorem bigNodes_children (n : dnode_t) (hn : n ∈ bigNodes) :
    (n.children0 = -1 ∨ n.children0 = 65536) ∧ (n.children1 = -1 ∨ n.children1 = 65536) := by
  unfold bigNodes at hn
  rw [List.mem_cons, List.mem_append, List.mem_replicate, List.mem_singleton] at hn
  rcases hn with h | ⟨_, h⟩ | h <;> subst h <;> simp

/-- C17, counterexample: the tree `bigNodes` has 65537 nodes; node 0 has leaf 0 and
node 65536 as children and node 65536 has two leaves, so the tree under node 0 is
finite and acyclic (three leaves at depth two) and every child reference is in bounds.
The index 65536 is pushed as 0 on the 16-bit stack, the pop returns node 0 and its
second child 65536 again, and the loop never ends, whatever number of iterations it
is given. -/
theorem traversal_of_big_tree_never_ends :
    (∀ fuel, traverse 20 bigNodes [] [⟨0, 0⟩] [] fuel = .error .fuel)
      ∧ subtreeLeaves bigNodes 2 0 = some [-1, -1, -1]
      ∧ bigNodes.length = 65537
      ∧ (∀ n ∈ bigNodes, (n.children0 = -1 ∨ n.children0 = 65536)
          ∧ (n.children1 = -1 ∨ n.children1 = 65536))
      ∧ leafAt 20 [] [⟨0, 0⟩] (-1 - (-1 : Int)) = some ⟨0, 0⟩ := by
  exact ⟨wrapped_index_traverse bigNodes bigNodes_zero bigNodes_last,
    wrapped_index_subtree bigNodes bigNodes_zero bigNodes_last, bigNodes_length,
    bigNodes_children, by decide⟩

/-- C17, amended: for a tree under node 0 that is finite and acyclic with its node
references in bounds (`subtreeLeaves` has a value) and at most 65536 nodes in the array,
the traversal loop terminates: from some number of iterations on it never runs out, and
it returns when the leaves of the tree are in bounds. For every input the stack is not
empty at a pop, and the loop returns at its first test exactly when the current
reference is negative and the stack is empty. -/
theorem traversal_terminates (version : Int) (nodes : List dnode_t)
    (leaves_v0 leaves : List dleaf_t) (leafbrushes : List Nat) (d : Nat) (ls : List Int)
    (hnodes : nodes.length ≤ 65536) (htree : subtreeLeaves nodes d 0 = some ls) :
    (∃ fuel0, ∀ fuel, fuel0 ≤ fuel →
        traverse version nodes leaves_v0 leaves leafbrushes fuel ≠ .error .fuel
          ∧ ((∀ c ∈ ls, leafInBounds version leaves_v0 leaves leafbrushes c = true) →
              ∃ set, traverse version nodes leaves_v0 leaves leafbrushes fuel = .ok set))
      ∧ (∀ fuel, traverse version nodes leaves_v0 leaves leafbrushes fuel ≠ .error .emptyStack)
      ∧ (∀ (curr : Int) (s set set1 : List Nat),
          traverseLoop version nodes leaves_v0 leaves leafbrushes 1 curr s set = .ok set1
            ↔ curr < 0 ∧ s = [] ∧ set1 = set) := by
  refine ⟨⟨ls.length + d, fun fuel hfuel => ?_⟩,
    fun fuel => traverseLoop_ne_emptyStack _ _ _ _ _ _ _ _ _,
    fun curr s set set1 => traverseLoop_one _ _ _ _ _ _ _ _ _⟩
  have hfst := traverseLoopTrace_fst version nodes leaves_v0 leaves leafbrushes fuel 0 [] [] []
  rcases traverse_run version nodes leaves_v0 leaves leafbrushes d ls hnodes htree fuel hfuel
    with ⟨h1, h2⟩ | ⟨set, h1, _⟩
  · rw [h1] at hfst
    unfold traverse
    rw [hfst]
    exact ⟨by simp [Except.map], fun hall => absurd hall h2⟩
  · rw [h1] at hfst
    unfold traverse
    rw [hfst]
    exact ⟨by simp [Except.map], fun _ => ⟨set, rfl⟩⟩

/-- Witness of C17: the tree `threeLeafNodes` of two nodes and three leaves. -/
theorem traversal_terminates_witness :
    ∃ fuel0, ∀ fuel, fuel0 ≤ fuel →
      traverse 20 threeLeafNodes [] threeLeaves [7, 3, 3, 5] fuel ≠ .error .fuel
        ∧ ((∀ c ∈ [-1, -2, -3], leafInBounds 20 [] threeLeaves [7, 3, 3, 5] c = true) →
            ∃ set, traverse 20 threeLeafNodes [] threeLeaves [7, 3, 3, 5] fuel = .ok set) :=
  (traversal_terminates 20 threeLeafNodes [] threeLeaves [7, 3, 3, 5] 2 [-1, -2, -3]
    (by decide) (by decide)).1

end Spt
